import Mathlib

/-!
Verification of the coop-backend write/read path (controllers/dataController.js,
controllers/authController.js) against its natural-language specification.

The JavaScript source is shallowly embedded: every SQL table is a Lean list of
row structures, a connection/transaction is explicit state passing over a
`DB` structure, JS exceptions thrown for authorization become `Except`, and
the MySQL driver together with bcrypt are modelled at their interface.
String-valued JS fields that may be absent or null are `Option String`.
-/

namespace CoopBackend

/-- A dynamic JS object as passed from the request body for generic
sub-collection rows: an association list from property name to string value.
A missing key models an undefined property. -/
abbrev Item := List (String × String)

/-- JS property read `item[col]`: the first binding wins (spread-style
overrides are modelled by prepending); a missing key yields none
(undefined, which the controller coerces to SQL NULL). -/
def colVal (it : Item) (c : String) : Option String :=
  (it.find? (fun kv => kv.1 == c)).map (fun kv => kv.2)

/-- Models the JS pattern from the controller that builds mapped copies such
as spread of o with timestamp set from another property: if the source
property is defined the destination key is prepended (later spread
assignment wins on lookup); if it is undefined the destination property
reads as undefined, modelled by erasing any existing binding. -/
def withKeyFrom (it : Item) (dst src : String) : Item :=
  match colVal it src with
  | some v => (dst, v) :: it
  | none => it.filter (fun kv => kv.1 ≠ dst)

/-- JS truthiness for the pattern (x || null) on string-valued fields:
an empty string is falsy and collapses to null. -/
def jsOr (o : Option String) : Option String :=
  match o with
  | some s => if s = "" then none else some s
  | none => none

/-- Models JSON.stringify on a plain string value (escaping not exercised by
the controller paths under verification). -/
def jsonStr (s : String) : String := "\"" ++ s ++ "\""

/-- Models JSON.stringify on a flat JS object. -/
def jsonItem (o : Item) : String :=
  "\x7b" ++ String.intercalate "," (o.map (fun kv => jsonStr kv.1 ++ ":" ++ jsonStr kv.2)) ++ "\x7d"

/-- Models JSON.stringify(u.attachment || null) on the action-plan-update
attachment field. -/
def jsonOpt : Option Item → String
  | none => "null"
  | some o => jsonItem o

/-- Models JSON.stringify(user.readThreadIds || []). -/
def jsonArr (l : List String) : String :=
  "[" ++ String.intercalate "," (l.map jsonStr) ++ "]"

/-- Character-level model of the JS String.prototype.startsWith check used
by the controllers on the bcrypt marker. -/
def jsStartsWith (s pre : String) : Bool := pre.data.isPrefixOf s.data

/-- Interface model of the external bcrypt primitive (out of scope per the
spec): hashing is deterministic here and produces a value recognized by the
controller's startsWith check on the bcrypt marker. -/
def bcryptHash (p : String) : String := "$2a$10$" ++ p

/-- Interface model of bcrypt.compare: succeeds exactly on the password the
stored hash was produced from. -/
def bcryptCompare (p hash : String) : Bool := hash == bcryptHash p

/-! ### groupChildrenBy (dataController.js lines 6-16)

The JS reducer keys an accumulator object by child[key]. When the child has
no such property the lookup yields undefined, and using it as an object key
coerces it to the string "undefined"; the row is still pushed into that
group. The foreign-key property is deleted from the child before pushing,
modelled by the payload component of the input pair. -/

/-- JS object-key coercion of the parent-key value: a missing property
(undefined) becomes the string key "undefined". -/
def jsKeyString : Option String → String
  | some s => s
  | none => "undefined"

/-- One step of the reducer body: append the child to the group of its key,
creating the group at the end when the key is new (JS adds a fresh property
after the existing ones). -/
def pushChild : List (String × List α) → String → α → List (String × List α)
  | [], k, c => [(k, [c])]
  | g :: rest, k, c =>
    if g.1 == k then (g.1, g.2 ++ [c]) :: rest else g :: pushChild rest k c

/-- Embedding of groupChildrenBy: the input pairs are (child[key], child
without the key property); the result is the accumulator object as an
association list from coerced parent key to the group's rows. -/
def groupChildrenBy (children : List (Option String × α)) : List (String × List α) :=
  children.foldl (fun acc c => pushChild acc (jsKeyString c.1) c.2) []

/-- Group lookup with the controller's (map[id] || []) default. -/
def glook (m : List (String × List α)) (k : String) : List α :=
  match m.find? (fun g => g.1 == k) with
  | some g => g.2
  | none => []

/-! ### Date normalizer -/

/-- Split a character list on a separator character; like String.splitOn
for a single-character separator, always at least one (possibly empty)
part is produced. -/
def splitOnChar (sep : Char) : List Char → List (List Char)
  | [] => [[]]
  | c :: rest =>
    let r := splitOnChar sep rest
    if c = sep then [] :: r
    else
      match r with
      | [] => [[c]]
      | h :: t => (c :: h) :: t

/-- Parse a non-empty all-digit character list as a decimal numeral. -/
def digits? (l : List Char) : Option Nat :=
  if l ≠ [] ∧ l.all (fun c => c.isDigit) then
    some (l.foldl (fun acc c => acc * 10 + (c.toNat - 48)) 0)
  else none

/-- Left-pad a numeral to two digits. -/
def pad2 (n : Nat) : String :=
  if n < 10 then "0" ++ toString n else toString n

/-- Left-pad a numeral to four digits. -/
def pad4 (n : Nat) : String :=
  if n < 1000 then
    if n < 100 then
      if n < 10 then "000" ++ toString n else "00" ++ toString n
    else "0" ++ toString n
  else toString n

/-- A calendar date with an optional time of day. -/
structure ParsedDate where
  year : Nat
  month : Nat
  day : Nat
  hour : Nat
  minute : Nat
  second : Nat
deriving DecidableEq, Repr

/-- Validate calendar ranges for a candidate day/month. -/
def validYMD (y m d : Nat) : Bool :=
  1 ≤ m && m ≤ 12 && 1 ≤ d && d ≤ 31 && y ≥ 1

/-- Parse the date part of an ISO-8601 string: four-digit year, two-digit
month and day separated by hyphens. -/
def parseIsoDate (s : List Char) : Option (Nat × Nat × Nat) :=
  match splitOnChar '-' s with
  | [ys, ms, ds] =>
    if ys.length = 4 ∧ ms.length = 2 ∧ ds.length = 2 then
      match digits? ys, digits? ms, digits? ds with
      | some y, some m, some d => if validYMD y m d then some (y, m, d) else none
      | _, _, _ => none
    else none
  | _ => none

/-- Accept what may follow the seconds of an ISO-8601 time: nothing, the Z
designator, or a dot followed by fractional digits and an optional Z. -/
def validIsoTail (rest : List Char) : Bool :=
  rest.isEmpty || rest == ['Z'] ||
    (match rest with
     | '.' :: frac =>
       let core := if frac.getLast? = some 'Z' then frac.dropLast else frac
       !core.isEmpty && core.all (fun c => c.isDigit)
     | _ => false)

/-- Parse the time part of an ISO-8601 string: HH:MM:SS optionally followed
by a fractional-seconds group and the Z designator. -/
def parseIsoTime (s : List Char) : Option (Nat × Nat × Nat) :=
  match s with
  | h1 :: h2 :: ':' :: m1 :: m2 :: ':' :: s1 :: s2 :: rest =>
    match digits? [h1, h2], digits? [m1, m2], digits? [s1, s2] with
    | some h, some mi, some sec =>
      if h ≤ 23 ∧ mi ≤ 59 ∧ sec ≤ 59 ∧ validIsoTail rest then
        some (h, mi, sec)
      else none
    | _, _, _ => none
  | _ => none

/-- Parse a full ISO-8601 string, with or without a time component. -/
def parseIso (raw : List Char) : Option ParsedDate :=
  match splitOnChar 'T' raw with
  | [d] =>
    (parseIsoDate d).map (fun ymd => ⟨ymd.1, ymd.2.1, ymd.2.2, 0, 0, 0⟩)
  | [d, t] =>
    match parseIsoDate d, parseIsoTime t with
    | some ymd, some hms => some ⟨ymd.1, ymd.2.1, ymd.2.2, hms.1, hms.2.1, hms.2.2⟩
    | _, _ => none
  | _ => none

/-- Try to parse day-month-year parts split on one separator. -/
def parseDmyParts (parts : List (List Char)) : Option ParsedDate :=
  match parts with
  | [ds, ms, ys] =>
    if 1 ≤ ds.length ∧ ds.length ≤ 2 ∧ 1 ≤ ms.length ∧ ms.length ≤ 2 ∧ ys.length = 4 then
      match digits? ds, digits? ms, digits? ys with
      | some d, some m, some y =>
        if validYMD y m d then some (⟨y, m, d, 0, 0, 0⟩ : ParsedDate) else none
      | _, _, _ => none
    else none
  | _ => none

/-- Parse a dd/mm/yyyy-family string with one of the separators slash, dot
or hyphen: day first, then month, then a four-digit year. -/
def parseDmy (raw : List Char) : Option ParsedDate :=
  match parseDmyParts (splitOnChar '/' raw) with
  | some p => some p
  | none =>
    match parseDmyParts (splitOnChar '.' raw) with
    | some p => some p
    | none => parseDmyParts (splitOnChar '-' raw)

/-- Render the canonical storage format: calendar date, a space, and a
time of day (midnight when the time is truncated). -/
def renderCanonical (p : ParsedDate) (keepTime : Bool) : String :=
  (pad4 p.year ++ "-" ++ pad2 p.month ++ "-" ++ pad2 p.day) ++
    (if keepTime then " " ++ pad2 p.hour ++ ":" ++ pad2 p.minute ++ ":" ++ pad2 p.second
     else " 00:00:00")

/-- Modelled from the spec: the Date Normalizer of spec section 4.4 has no
implementation under src/ (the controllers store submitted date strings
verbatim), so Normalize(raw, keepTime) is modelled faithfully from the
spec's words: accept ISO-8601 strings and dd/mm/yyyy-family strings with
separators dot, slash and hyphen; yield an absent value for unparseable
input instead of failing; truncate to midnight of the same calendar day
when keepTime is false and preserve hour/minute/second when it is true.
It is a pure function of (raw, keepTime), hence deterministic and
independent of any host timezone: date-only inputs are treated as calendar
dates, not instants. -/
def normalizeDate (raw : String) (keepTime : Bool) : Option String :=
  match parseIso raw.data with
  | some p => some (renderCanonical p keepTime)
  | none =>
    match parseDmy raw.data with
    | some p => some (renderCanonical p keepTime)
    | none => none

/-! ### Data model

One Lean list per SQL table; rows carry the columns written by the
controllers. String columns that may receive NULL (from undefined JS
fields or explicit null) are Option String. Client-supplied identifiers
are strings. -/

/-- The authenticated principal decoded from the bearer token by
authMiddleware and attached as req.user. -/
structure Principal where
  id : String
  name : String
  role : String
  area : String
deriving DecidableEq, Repr

/-- A row of the users table. -/
structure UserRow where
  id : String
  name : String
  role : String
  area : String
  password : Option String
  readThreadIds : String
deriving DecidableEq, Repr

/-- A submitted user object in the save payload. -/
structure UserIn where
  id : String
  name : String
  role : String
  area : String
  password : Option String
  readThreadIds : Option (List String)
deriving DecidableEq, Repr

/-- A row of the strategic_goals table. -/
structure StratGoalRow where
  id : String
  title : Option String
  description : Option String
  targetDate : Option String
deriving DecidableEq, Repr

/-- A submitted strategic goal. -/
structure GoalIn where
  id : String
  title : Option String
  description : Option String
  targetDate : Option String
deriving DecidableEq, Repr

/-- A row of the indicators table. -/
structure IndicatorRow where
  id : String
  principle : Option String
  name : String
  calculation : Option String
  purpose : Option String
  responsibleArea : Option String
  strategicGoalId : Option String
deriving DecidableEq, Repr

/-- A row of one of the generic per-indicator child tables written through
syncSubCollection: the parent foreign key plus the values of the declared
columns in order. -/
structure ChildRow where
  parent_id : String
  vals : List (Option String)
deriving DecidableEq, Repr

/-- A row of the action_plans table. -/
structure PlanRow where
  id : String
  indicator_id : String
  title : Option String
  description : Option String
  owner : Option String
  status : Option String
  dueDate : Option String
  createdDate : Option String
deriving DecidableEq, Repr

/-- A row of the action_plan_updates table; the attachment column stores a
JSON-serialized object or the JSON null literal. -/
structure UpdateRow where
  id : String
  action_plan_id : String
  date : Option String
  author : Option String
  text : Option String
  statusChange : Option String
  attachment : String
deriving DecidableEq, Repr

/-- A submitted action-plan update. -/
structure UpdateIn where
  id : String
  date : Option String
  author : Option String
  text : Option String
  statusChange : Option String
  attachment : Option Item
deriving DecidableEq, Repr

/-- A submitted action plan. -/
structure PlanIn where
  id : String
  title : Option String
  description : Option String
  owner : Option String
  status : Option String
  dueDate : Option String
  createdDate : Option String
  updates : Option (List UpdateIn)
deriving DecidableEq, Repr

/-- A submitted indicator with its nested child collections. -/
structure IndicatorIn where
  id : String
  principle : Option String
  name : String
  calculation : Option String
  purpose : Option String
  responsibleArea : Option String
  strategicGoalId : Option String
  historicalData : Option (List Item)
  goals : Option (List Item)
  observations : Option (List Item)
  risks : Option (List Item)
  actionPlans : Option (List PlanIn)
  attachments : Option (List Item)
  auditLog : Option (List Item)
deriving DecidableEq, Repr

/-- A row of the meetings table. -/
structure MeetingRow where
  id : String
  date : Option String
  attendees : Option String
  agenda : Option String
  minutes : Option String
deriving DecidableEq, Repr

/-- A row of the decisions table. -/
structure DecisionRow where
  id : String
  meeting_id : String
  text : Option String
  responsibleUserId : Option String
  dueDate : Option String
  status : Option String
deriving DecidableEq, Repr

/-- A submitted decision. -/
structure DecisionIn where
  id : String
  text : Option String
  responsibleUserId : Option String
  dueDate : Option String
  status : Option String
deriving DecidableEq, Repr

/-- A submitted meeting. -/
structure MeetingIn where
  id : String
  date : Option String
  attendees : Option String
  agenda : Option String
  minutes : Option String
  decisions : Option (List DecisionIn)
deriving DecidableEq, Repr

/-- A row of the discussion_threads table. -/
structure ThreadRow where
  id : String
  title : Option String
  content : Option String
  authorId : Option String
  timestamp : Option String
  principleTag : Option String
deriving DecidableEq, Repr

/-- A row of the thread_replies table. -/
structure ReplyRow where
  id : String
  thread_id : String
  authorId : Option String
  timestamp : Option String
  content : Option String
deriving DecidableEq, Repr

/-- A submitted thread reply. -/
structure ReplyIn where
  id : String
  authorId : Option String
  timestamp : Option String
  content : Option String
deriving DecidableEq, Repr

/-- A submitted discussion thread. -/
structure ThreadIn where
  id : String
  title : Option String
  content : Option String
  authorId : Option String
  timestamp : Option String
  principleTag : Option String
  replies : Option (List ReplyIn)
deriving DecidableEq, Repr

/-- A row of the notifications table. -/
structure NotifRow where
  id : String
  userId : Option String
  ntype : Option String
  message : Option String
  relatedIndicatorId : Option String
  relatedMeetingId : Option String
  relatedThreadId : Option String
  isRead : Nat
  timestamp : Option String
deriving DecidableEq, Repr

/-- A submitted notification. -/
structure NotifIn where
  id : String
  userId : Option String
  ntype : Option String
  message : Option String
  relatedIndicatorId : Option String
  relatedMeetingId : Option String
  relatedThreadId : Option String
  isRead : Bool
  timestamp : Option String
deriving DecidableEq, Repr

/-- The persisted database state: one list per SQL table. -/
structure DB where
  users : List UserRow
  strategic_goals : List StratGoalRow
  indicators : List IndicatorRow
  historical_data : List ChildRow
  goals : List ChildRow
  observations : List ChildRow
  risks : List ChildRow
  action_plans : List PlanRow
  action_plan_updates : List UpdateRow
  attachments : List ChildRow
  audit_logs : List ChildRow
  meetings : List MeetingRow
  decisions : List DecisionRow
  discussion_threads : List ThreadRow
  thread_replies : List ReplyRow
  notifications : List NotifRow
deriving DecidableEq, Repr

/-- The partial document submitted to POST /api/data/app-data: a missing or
null top-level collection is none. -/
structure Doc where
  users : Option (List UserIn) := none
  indicators : Option (List IndicatorIn) := none
  strategicGoals : Option (List GoalIn) := none
  meetings : Option (List MeetingIn) := none
  discussionThreads : Option (List ThreadIn) := none
  notifications : Option (List NotifIn) := none
deriving DecidableEq, Repr

/-- The structured error thrown for authorization failures
(throw with status and message in the controller). -/
structure SaveErr where
  status : Nat
  message : String
deriving DecidableEq, Repr

/-! ### Reconciler: saveAppData (dataController.js lines 131-278) -/

/-- INSERT ... ON DUPLICATE KEY UPDATE into users keyed by id: update the
matching row in place, or append a fresh row. -/
def upsertUserRow (tbl : List UserRow) (r : UserRow) : List UserRow :=
  if tbl.any (fun x => x.id == r.id) then
    tbl.map (fun x => if x.id == r.id then r else x)
  else tbl ++ [r]

/-- The row written for one submitted user: read the currently stored
password for the submitted id; if the submitted password is truthy and
does not carry the bcrypt prefix, hash it, otherwise keep the stored
value (null when the row is new). -/
def savedUserRow (db : DB) (u : UserIn) : UserRow :=
  let existingPw : Option String :=
    match db.users.find? (fun x => x.id == u.id) with
    | some row => row.password
    | none => none
  let passwordToSave : Option String :=
    match u.password with
    | some p => if p != "" && !(jsStartsWith p "$2a$") then some (bcryptHash p) else existingPw
    | none => existingPw
  ⟨u.id, u.name, u.role, u.area, passwordToSave, jsonArr (u.readThreadIds.getD [])⟩

/-- One iteration of the users loop: build the row and upsert it. -/
def saveOneUser (db : DB) (u : UserIn) : DB :=
  { db with users := upsertUserRow db.users (savedUserRow db u) }

/-- The users loop body applied over the submitted list. -/
def saveUsersLoop : List UserIn → DB → DB
  | [], db => db
  | u :: rest, db => saveUsersLoop rest (saveOneUser db u)

/-- The users branch: delete every existing id absent from the submission
except the acting principal's, then upsert each submitted user. -/
def saveUsersStep (actor : Principal) (us : List UserIn) (db : DB) : DB :=
  let incomingIds := us.map (fun u => u.id)
  let idsToDelete := (db.users.map (fun r => r.id)).filter
    (fun i => !(incomingIds.contains i) && i != actor.id)
  let db1 := { db with users := db.users.filter (fun r => !(idsToDelete.contains r.id)) }
  saveUsersLoop us db1

/-- The users collection guard and reconciliation. -/
def saveUsers (actor : Principal) (doc : Doc) (db : DB) : Except SaveErr DB :=
  match doc.users with
  | none => .ok db
  | some us =>
    if actor.role ≠ "Administrador" then
      .error ⟨403, "No tiene permiso para gestionar usuarios."⟩
    else .ok (saveUsersStep actor us db)

/-- Embedding of syncSubCollection: delete the parent's rows from the
table, then bulk-insert the submitted collection's rows, each row holding
the parent id followed by the declared columns' values (undefined becomes
NULL). A missing or empty collection only deletes. -/
def syncSubCollection (tbl : List ChildRow) (parentId : String)
    (collection : Option (List Item)) (columns : List String) : List ChildRow :=
  let kept := tbl.filter (fun r => !(r.parent_id == parentId))
  match collection with
  | none => kept
  | some items =>
    if items.length > 0 then
      kept ++ items.map (fun it => ⟨parentId, columns.map (colVal it)⟩)
    else kept

/-- INSERT ... ON DUPLICATE KEY UPDATE into indicators keyed by id. -/
def upsertIndicatorRow (tbl : List IndicatorRow) (r : IndicatorRow) : List IndicatorRow :=
  if tbl.any (fun x => x.id == r.id) then
    tbl.map (fun x => if x.id == r.id then r else x)
  else tbl ++ [r]

/-- One iteration of the action-plans insert loop: insert the plan row,
then bulk-insert its updates when present and non-empty, serializing each
update's attachment object to the JSON attachment column. -/
def savePlanOne (indId : String) (db : DB) (p : PlanIn) : DB :=
  let db := { db with action_plans := db.action_plans ++
    [(⟨p.id, indId, p.title, p.description, p.owner, p.status, p.dueDate, p.createdDate⟩ : PlanRow)] }
  match p.updates with
  | none => db
  | some us =>
    if us.length > 0 then
      { db with action_plan_updates := db.action_plan_updates ++ us.map (fun u =>
          ⟨u.id, p.id, u.date, u.author, u.text, jsOr u.statusChange, jsonOpt u.attachment⟩) }
    else db

/-- The action-plans block: delete the indicator's existing plan updates
(via the subselect on action_plans) and plans, then run the insert loop
over the submitted plans when present and non-empty. -/
def savePlans (indId : String) (actionPlans : Option (List PlanIn)) (db : DB) : DB :=
  let planIds := (db.action_plans.filter (fun p => p.indicator_id == indId)).map (fun p => p.id)
  let db := { db with action_plan_updates :=
    db.action_plan_updates.filter (fun u => !(planIds.contains u.action_plan_id)) }
  let db := { db with action_plans :=
    db.action_plans.filter (fun p => !(p.indicator_id == indId)) }
  match actionPlans with
  | none => db
  | some plans =>
    if plans.length > 0 then plans.foldl (savePlanOne indId) db
    else db

/-- Writing one authorized indicator: upsert the main row, fully replace
each generic child table within the indicator's scope (observations and
risks first get their timestamp column mapped from id and createdDate
respectively), then the action-plans block. -/
def writeIndicator (ind : IndicatorIn) (db : DB) : DB :=
  let mainRow : IndicatorRow :=
    ⟨ind.id, ind.principle, ind.name, ind.calculation, ind.purpose,
      ind.responsibleArea, jsOr ind.strategicGoalId⟩
  let db := { db with indicators := upsertIndicatorRow db.indicators mainRow }
  let hd := syncSubCollection db.historical_data ind.id ind.historicalData ["year", "value", "formattedValue"]
  let db := { db with historical_data := hd }
  let gl := syncSubCollection db.goals ind.id ind.goals ["year", "target"]
  let db := { db with goals := gl }
  let observationsForDb := (ind.observations.getD []).map (fun o => withKeyFrom o "timestamp" "id")
  let ob := syncSubCollection db.observations ind.id (some observationsForDb) ["id", "author", "role", "date", "text", "timestamp"]
  let db := { db with observations := ob }
  let risksForDb := (ind.risks.getD []).map (fun r => withKeyFrom r "timestamp" "createdDate")
  let rk := syncSubCollection db.risks ind.id (some risksForDb) ["id", "title", "description", "impact", "probability", "riskScore", "mitigationPlan", "status", "owner", "timestamp"]
  let db := { db with risks := rk }
  let at2 := syncSubCollection db.attachments ind.id ind.attachments ["id", "fileName", "fileType", "fileSize", "dataUrl", "uploadedBy", "uploadDate"]
  let db := { db with attachments := at2 }
  let au := syncSubCollection db.audit_logs ind.id ind.auditLog ["id", "timestamp", "user", "action", "details"]
  let db := { db with audit_logs := au }
  savePlans ind.id ind.actionPlans db

/-- One iteration of the indicators loop: look up the stored row for the
submitted id; an Area Manager whose area differs from the stored
responsibleArea aborts the transaction with a 403 naming the indicator;
otherwise the indicator and its children are written. -/
def saveOneIndicator (actor : Principal) (db : DB) (ind : IndicatorIn) : Except SaveErr DB :=
  let orig := db.indicators.find? (fun r => r.id == ind.id)
  let areaMismatch : Bool :=
    match orig with
    | some o => o.responsibleArea != some actor.area
    | none => false
  if actor.role == "Gerente de Área" && areaMismatch then
    .error ⟨403, "No tiene permiso para editar el indicador \"" ++ ind.name ++ "\"."⟩
  else .ok (writeIndicator ind db)

/-- The indicators loop, aborting on the first authorization failure. -/
def saveIndicatorsLoop (actor : Principal) : List IndicatorIn → DB → Except SaveErr DB
  | [], db => .ok db
  | ind :: rest, db =>
    match saveOneIndicator actor db ind with
    | .error e => .error e
    | .ok db' => saveIndicatorsLoop actor rest db'

/-- The indicators branch. -/
def saveIndicators (actor : Principal) (doc : Doc) (db : DB) : Except SaveErr DB :=
  match doc.indicators with
  | none => .ok db
  | some inds => saveIndicatorsLoop actor inds db

/-- The strategic goals branch: Administrator only; delete every row, then
bulk-insert the submitted goals. -/
def saveStrategicGoals (actor : Principal) (doc : Doc) (db : DB) : Except SaveErr DB :=
  match doc.strategicGoals with
  | none => .ok db
  | some gs =>
    if actor.role ≠ "Administrador" then
      .error ⟨403, "No tiene permiso para gestionar Objetivos Estratégicos."⟩
    else .ok { db with strategic_goals :=
      if gs.length > 0 then gs.map (fun g => ⟨g.id, g.title, g.description, g.targetDate⟩)
      else [] }

/-- One iteration of the meetings insert loop: insert the meeting row,
then bulk-insert its decisions when present and non-empty. -/
def saveMeetingOne (db : DB) (m : MeetingIn) : DB :=
  let db := { db with meetings := db.meetings ++
    [(⟨m.id, m.date, m.attendees, m.agenda, m.minutes⟩ : MeetingRow)] }
  match m.decisions with
  | none => db
  | some ds =>
    if ds.length > 0 then
      { db with decisions := db.decisions ++ ds.map (fun d =>
          ⟨d.id, m.id, d.text, d.responsibleUserId, d.dueDate, d.status⟩) }
    else db

/-- The meetings branch: Administrator or the oversight role only; delete
every decision and meeting, then insert each submitted meeting followed by
its decisions. -/
def saveMeetings (actor : Principal) (doc : Doc) (db : DB) : Except SaveErr DB :=
  match doc.meetings with
  | none => .ok db
  | some ms =>
    if ¬ (actor.role = "Administrador" ∨ actor.role = "Junta de Vigilancia") then
      .error ⟨403, "No tiene permiso para gestionar reuniones."⟩
    else
      let cleared := { db with decisions := [], meetings := [] }
      Except.ok (ms.foldl saveMeetingOne cleared)

/-- One iteration of the threads insert loop: insert the thread row, then
bulk-insert its replies when present and non-empty. -/
def saveThreadOne (db : DB) (t : ThreadIn) : DB :=
  let db := { db with discussion_threads := db.discussion_threads ++
    [(⟨t.id, t.title, t.content, t.authorId, t.timestamp, jsOr t.principleTag⟩ : ThreadRow)] }
  match t.replies with
  | none => db
  | some rs =>
    if rs.length > 0 then
      { db with thread_replies := db.thread_replies ++ rs.map (fun r =>
          ⟨r.id, t.id, r.authorId, r.timestamp, r.content⟩) }
    else db

/-- The discussion threads branch: no role guard; delete every reply and
thread, then insert each submitted thread followed by its replies. -/
def saveThreads (doc : Doc) (db : DB) : Except SaveErr DB :=
  match doc.discussionThreads with
  | none => .ok db
  | some ts =>
    let cleared := { db with thread_replies := [], discussion_threads := [] }
    Except.ok (ts.foldl saveThreadOne cleared)

/-- The notifications branch: no role guard; delete every row, then
bulk-insert the submitted notifications. -/
def saveNotifications (doc : Doc) (db : DB) : Except SaveErr DB :=
  match doc.notifications with
  | none => .ok db
  | some ns =>
    let rows : List NotifRow :=
      if ns.length > 0 then
        ns.map (fun n => ⟨n.id, n.userId, n.ntype, n.message, jsOr n.relatedIndicatorId, jsOr n.relatedMeetingId, jsOr n.relatedThreadId, if n.isRead then 1 else 0, n.timestamp⟩)
      else []
    Except.ok { db with notifications := rows }

/-- The body of the transaction: the per-collection branches in source
order, each able to abort with a thrown authorization error. -/
def saveAppDataBody (actor : Principal) (doc : Doc) (db : DB) : Except SaveErr DB :=
  match saveUsers actor doc db with
  | .error e => .error e
  | .ok d1 =>
    match saveIndicators actor doc d1 with
    | .error e => .error e
    | .ok d2 =>
      match saveStrategicGoals actor doc d2 with
      | .error e => .error e
      | .ok d3 =>
        match saveMeetings actor doc d3 with
        | .error e => .error e
        | .ok d4 =>
          match saveThreads doc d4 with
          | .error e => .error e
          | .ok d5 => saveNotifications doc d5

/-- The HTTP outcome of a save request together with the state left in
storage after commit or rollback. -/
structure SaveOutcome where
  status : Nat
  message : String
  db : DB
deriving DecidableEq, Repr

/-- Embedding of the exported saveAppData handler: run the transaction
body; on success commit and answer 200; on any thrown error roll the
transaction back (storage reverts to the pre-request state) and answer 403
for authorization errors and 500 otherwise. -/
def saveAppData (actor : Principal) (doc : Doc) (db : DB) : SaveOutcome :=
  match saveAppDataBody actor doc db with
  | .ok db' => ⟨200, "Datos guardados exitosamente.", db'⟩
  | .error e =>
    if e.status == 403 then ⟨403, e.message, db⟩
    else ⟨500, "Error en el servidor al guardar los datos.", db⟩

/-! ### Assembler: getAppData (dataController.js lines 18-116) -/

/-- A user as read by getAppData (SELECT id, name, role, area,
readThreadIds — the password column is never selected) and as sent back by
login after deleting the password property. -/
structure UserView where
  id : String
  name : String
  role : String
  area : String
  readThreadIds : String
deriving DecidableEq, Repr

/-- Projection of a stored user row onto the columns exposed to clients. -/
def userView (u : UserRow) : UserView :=
  ⟨u.id, u.name, u.role, u.area, u.readThreadIds⟩

/-- An action-plan row after groupChildrenBy has deleted its foreign key. -/
structure PlanSans where
  id : String
  title : Option String
  description : Option String
  owner : Option String
  status : Option String
  dueDate : Option String
  createdDate : Option String
deriving DecidableEq, Repr

/-- An action-plan-update row after groupChildrenBy has deleted its
foreign key. -/
structure UpdateView where
  id : String
  date : Option String
  author : Option String
  text : Option String
  statusChange : Option String
  attachment : String
deriving DecidableEq, Repr

/-- An assembled action plan with its updates attached. -/
structure PlanView where
  id : String
  title : Option String
  description : Option String
  owner : Option String
  status : Option String
  dueDate : Option String
  createdDate : Option String
  updates : List UpdateView
deriving DecidableEq, Repr

/-- A decision row after groupChildrenBy has deleted its foreign key. -/
structure DecisionView where
  id : String
  text : Option String
  responsibleUserId : Option String
  dueDate : Option String
  status : Option String
deriving DecidableEq, Repr

/-- A thread reply row after groupChildrenBy has deleted its foreign key. -/
structure ReplyView where
  id : String
  authorId : Option String
  timestamp : Option String
  content : Option String
deriving DecidableEq, Repr

/-- An assembled indicator: the stored row spread together with every child
collection. -/
structure IndicatorView where
  row : IndicatorRow
  historicalData : List (List (Option String))
  goals : List (List (Option String))
  observations : List (List (Option String))
  risks : List (List (Option String))
  actionPlans : List PlanView
  attachments : List (List (Option String))
  auditLog : List (List (Option String))
deriving DecidableEq, Repr

/-- An assembled meeting with its decisions. -/
structure MeetingView where
  row : MeetingRow
  decisions : List DecisionView
deriving DecidableEq, Repr

/-- An assembled discussion thread with its replies. -/
structure ThreadView where
  row : ThreadRow
  replies : List ReplyView
deriving DecidableEq, Repr

/-- The full document returned by GET /api/data/app-data. -/
structure AppDoc where
  users : List UserView
  strategicGoals : List StratGoalRow
  indicators : List IndicatorView
  meetings : List MeetingView
  discussionThreads : List ThreadView
  notifications : List NotifRow
deriving DecidableEq, Repr

/-- Group a generic child table by its parent foreign key, the key property
deleted from each row (only the column values remain). -/
def childByParent (rows : List ChildRow) : List (String × List (List (Option String))) :=
  groupChildrenBy (rows.map (fun r => (some r.parent_id, r.vals)))

/-- An action-plan row with its foreign key deleted. -/
def planSans (p : PlanRow) : PlanSans :=
  ⟨p.id, p.title, p.description, p.owner, p.status, p.dueDate, p.createdDate⟩

/-- An update row with its foreign key deleted. -/
def updateView (u : UpdateRow) : UpdateView :=
  ⟨u.id, u.date, u.author, u.text, u.statusChange, u.attachment⟩

/-- A decision row with its foreign key deleted. -/
def decisionView (d : DecisionRow) : DecisionView :=
  ⟨d.id, d.text, d.responsibleUserId, d.dueDate, d.status⟩

/-- A reply row with its foreign key deleted. -/
def replyView (r : ReplyRow) : ReplyView :=
  ⟨r.id, r.authorId, r.timestamp, r.content⟩

/-- The action_plans table grouped by indicator. -/
def actionPlansByIndicator (db : DB) : List (String × List PlanSans) :=
  groupChildrenBy (db.action_plans.map (fun p => (some p.indicator_id, planSans p)))

/-- The action_plan_updates table grouped by action plan. -/
def updatesByActionPlan (db : DB) : List (String × List UpdateView) :=
  groupChildrenBy (db.action_plan_updates.map (fun u => (some u.action_plan_id, updateView u)))

/-- The decisions table grouped by meeting. -/
def decisionsByMeeting (db : DB) : List (String × List DecisionView) :=
  groupChildrenBy (db.decisions.map (fun d => (some d.meeting_id, decisionView d)))

/-- The thread_replies table grouped by thread. -/
def repliesByThread (db : DB) : List (String × List ReplyView) :=
  groupChildrenBy (db.thread_replies.map (fun r => (some r.thread_id, replyView r)))

/-- Compose one indicator: the stored row together with every grouped child
collection, action plans carrying their own updates. -/
def assembleIndicator (db : DB) (indicator : IndicatorRow) : IndicatorView :=
  let plans := (glook (actionPlansByIndicator db) indicator.id).map (fun p =>
    (⟨p.id, p.title, p.description, p.owner, p.status, p.dueDate, p.createdDate,
      glook (updatesByActionPlan db) p.id⟩ : PlanView))
  ⟨indicator,
    glook (childByParent db.historical_data) indicator.id,
    glook (childByParent db.goals) indicator.id,
    glook (childByParent db.observations) indicator.id,
    glook (childByParent db.risks) indicator.id,
    plans,
    glook (childByParent db.attachments) indicator.id,
    glook (childByParent db.audit_logs) indicator.id⟩

/-- Embedding of getAppData: read every table, group each child table by
its foreign key, and compose the nested document bottom-up. The users
query selects every column except password. -/
def getAppData (db : DB) : AppDoc :=
  ⟨db.users.map userView,
    db.strategic_goals,
    db.indicators.map (assembleIndicator db),
    db.meetings.map (fun m => (⟨m, glook (decisionsByMeeting db) m.id⟩ : MeetingView)),
    db.discussion_threads.map (fun t => (⟨t, glook (repliesByThread db) t.id⟩ : ThreadView)),
    db.notifications⟩

/-! ### login (authController.js lines 50-119) -/

/-- The response of the login endpoint; the token carries the signed
payload with id, name, role and area. -/
inductive LoginResp where
  | badRequest (message : String)
  | unauthorized (message : String)
  | success (token : Principal) (user : UserView)
deriving DecidableEq, Repr

/-- Embedding of the login handler. Returns the response, the database
state afterwards, and how many password UPDATE statements ran. A stored
value carrying the bcrypt prefix is compared with bcrypt and never
rewritten; a legacy value is compared directly and, on match, overwritten
once with a fresh hash before the response is built. The user object in
the response has the password property deleted. -/
def login (db : DB) (name pw : String) : LoginResp × DB × Nat :=
  if name = "" ∨ pw = "" then
    (.badRequest "El nombre de usuario y la contraseña son requeridos.", db, 0)
  else
    match db.users.find? (fun u => u.name == name) with
    | none => (.unauthorized "Credenciales inválidas.", db, 0)
    | some user =>
      let isHashStored : Bool :=
        match user.password with
        | some stored => stored != "" && jsStartsWith stored "$2a$"
        | none => false
      if isHashStored then
        if bcryptCompare pw (user.password.getD "") then
          (.success ⟨user.id, user.name, user.role, user.area⟩ (userView user), db, 0)
        else (.unauthorized "Credenciales inválidas.", db, 0)
      else
        if user.password == some pw then
          let updatedUsers := db.users.map (fun x =>
            if x.id == user.id then { x with password := some (bcryptHash pw) } else x)
          (.success ⟨user.id, user.name, user.role, user.area⟩ (userView user), { db with users := updatedUsers }, 1)
        else (.unauthorized "Credenciales inválidas.", db, 0)

/-! ### Concrete fixtures used by witnesses and counterexamples -/

/-- A database with every table empty. -/
def emptyDB : DB := ⟨[], [], [], [], [], [], [], [], [], [], [], [], [], [], [], []⟩

/-- An Administrator principal. -/
def adminFx : Principal := ⟨"adm", "Admin", "Administrador", "Central"⟩

/-- An Area Manager principal for area Finance. -/
def gerenteFx : Principal := ⟨"g", "Gina", "Gerente de Área", "Finance"⟩

/-- A direct indicator attachment with id 1 and fileName X. -/
def attDirectFx : Item := [("id", "1"), ("fileName", "X")]

/-- An action-plan-update attachment with the same id 1 but fileName Y. -/
def attUpdateFx : Item := [("id", "1"), ("fileName", "Y")]

/-- An action-plan update carrying the id-1 attachment with metadata Y. -/
def updFx : UpdateIn := ⟨"U1", some "2024-01-01", some "a", some "t", none, some attUpdateFx⟩

/-- An action plan carrying the update above. -/
def planFx : PlanIn := ⟨"P1", some "T", none, none, none, none, none, some [updFx]⟩

/-- An indicator submitting both the direct id-1 attachment and the
action-plan update whose attachment also has id 1. -/
def indC1Fx : IndicatorIn :=
  ⟨"I1", none, "Ind1", none, none, some "Finance", none, none, none, none, none,
    some [planFx], some [attDirectFx], none⟩

/-- A save document containing only the indicator above. -/
def docC1Fx : Doc := { indicators := some [indC1Fx] }

/-- A stored user row with the given id. -/
def userRowFx (i : String) : UserRow := ⟨i, "n" ++ i, "Miembro", "Ar", some "pw", "[]"⟩

/-- A database holding users A, B and C. -/
def dbABCFx : DB := { emptyDB with users := [userRowFx "A", userRowFx "B", userRowFx "C"] }

/-- A submitted user with the given id and changed fields. -/
def userInFx (i : String) : UserIn := ⟨i, "nn" ++ i, "Miembro", "Ar2", none, none⟩

/-- A save document submitting users A and D only. -/
def docADFx : Doc := { users := some [userInFx "A", userInFx "D"] }

/-- A database whose only user has the stored password "old". -/
def dbOldPwFx : DB := { emptyDB with users := [⟨"u1", "alice", "Miembro", "Ar", some "old", "[]"⟩] }

/-- A save document submitting that user with an empty-string password. -/
def docEmptyPwFx : Doc := { users := some [⟨"u1", "alice", "Miembro", "Ar", some "", none⟩] }

/-- A stored indicator whose responsibleArea is Operations. -/
def indRowXFx : IndicatorRow := ⟨"X", none, "IndX", none, none, some "Operations", none⟩

/-- A database holding that indicator. -/
def dbIndXFx : DB := { emptyDB with indicators := [indRowXFx] }

/-- A submission of the same indicator id X. -/
def indInXFx : IndicatorIn :=
  ⟨"X", none, "IndX", none, none, some "Operations", none, none, none, none, none, none, none, none⟩

/-- A save document containing only indicator X. -/
def docIndXFx : Doc := { indicators := some [indInXFx] }

/-- A database whose only user still stores the legacy plain-text
password "secret". -/
def dbPlainPwFx : DB := { emptyDB with users := [⟨"u1", "alice", "Miembro", "Ar", some "secret", "[]"⟩] }

/-- Concatenation of every group produced by the grouping function. -/
def flattenGroups (m : List (String × List α)) : List α :=
  m.foldr (fun g acc => g.2 ++ acc) []

/-! ## Theorems -/

/-! ### Grouping function (claim C7) -/

theorem glook_cons (g : String × List α) (rest : List (String × List α)) (k : String) :
    glook (g :: rest) k = if g.1 == k then g.2 else glook rest k := by
  by_cases h : g.1 == k
  · simp [glook, List.find?_cons_of_pos, h]
  · simp [glook, List.find?_cons_of_neg, h]

theorem glook_pushChild (acc : List (String × List α)) (kk k : String) (c : α) :
    glook (pushChild acc kk c) k =
      if kk == k then glook acc k ++ [c] else glook acc k := by
  induction acc with
  | nil =>
    simp only [pushChild]
    rw [glook_cons]
    by_cases h : kk == k
    · simp [h, glook]
    · simp [h, glook]
  | cons g rest ih =>
    simp only [pushChild]
    by_cases hg : g.1 == kk
    · simp only [hg, if_true]
      have hgeq : g.1 = kk := eq_of_beq hg
      subst hgeq
      rw [glook_cons, glook_cons]
      by_cases hk : g.1 == k
      · simp [hk]
      · simp [hk]
    · simp only [hg, Bool.false_eq_true, if_false]
      rw [glook_cons, glook_cons, ih]
      have hgeq : g.1 ≠ kk := by
        intro e
        rw [e] at hg
        simp at hg
      by_cases hk : g.1 == k
      · have hkeq : g.1 = k := eq_of_beq hk
        have hne : kk ≠ k := fun e => hgeq (hkeq.trans e.symm)
        have hb : (kk == k) = false := beq_eq_false_iff_ne.mpr hne
        simp [hk, hb]
      · simp [hk]

theorem glook_foldl_push (l : List (Option String × α)) :
    ∀ (acc : List (String × List α)) (k : String),
      glook (l.foldl (fun acc c => pushChild acc (jsKeyString c.1) c.2) acc) k =
        glook acc k ++ (l.filter (fun c => jsKeyString c.1 == k)).map (fun c => c.2) := by
  induction l with
  | nil => intro acc k; simp
  | cons c rest ih =>
    intro acc k
    rw [List.foldl_cons, ih, glook_pushChild]
    by_cases h : jsKeyString c.1 == k
    · simp [List.filter_cons, h, List.append_assoc]
    · simp [List.filter_cons, h]

theorem glook_groupChildrenBy (children : List (Option String × α)) (k : String) :
    glook (groupChildrenBy children) k =
      (children.filter (fun c => jsKeyString c.1 == k)).map (fun c => c.2) := by
  have h := glook_foldl_push children [] k
  simpa [groupChildrenBy, glook] using h

theorem flattenGroups_cons (g : String × List α) (rest : List (String × List α)) :
    flattenGroups (g :: rest) = g.2 ++ flattenGroups rest := rfl

theorem flattenGroups_pushChild (acc : List (String × List α)) (k : String) (c : α) :
    (flattenGroups (pushChild acc k c)).Perm (c :: flattenGroups acc) := by
  induction acc with
  | nil => simp [pushChild, flattenGroups]
  | cons g rest ih =>
    simp only [pushChild]
    by_cases hg : g.1 == k
    · simp only [hg, if_true]
      rw [flattenGroups_cons, flattenGroups_cons, List.append_assoc]
      exact List.perm_middle
    · simp only [hg, Bool.false_eq_true, if_false]
      rw [flattenGroups_cons, flattenGroups_cons]
      exact (ih.append_left g.2).trans List.perm_middle

theorem flattenGroups_foldl_push (l : List (Option String × α)) :
    ∀ acc, (flattenGroups (l.foldl (fun acc c => pushChild acc (jsKeyString c.1) c.2) acc)).Perm
        (flattenGroups acc ++ l.map (fun c => c.2)) := by
  induction l with
  | nil => intro acc; simp
  | cons c rest ih =>
    intro acc
    rw [List.foldl_cons]
    refine (ih _).trans ?_
    refine ((flattenGroups_pushChild acc (jsKeyString c.1) c.2).append_right _).trans ?_
    simp only [List.map_cons, List.cons_append]
    exact List.perm_middle.symm

theorem flattenGroups_groupChildrenBy (children : List (Option String × α)) :
    (flattenGroups (groupChildrenBy children)).Perm (children.map (fun c => c.2)) := by
  have h := flattenGroups_foldl_push children []
  simpa [groupChildrenBy, flattenGroups] using h

/-- C7 counterexample: the claim says a row lacking the parent key is left
out of the result, but groupChildrenBy files it under the object key that
undefined coerces to, so the group "undefined" contains the row. -/
theorem claim_c7_counterexample :
    ¬ (∀ g ∈ groupChildrenBy [((none : Option String), (7 : Nat))], (7 : Nat) ∉ g.2) := by
  decide

/-- C7 as amended: (a) the grouping preserves every row exactly once
across the groups (the concatenation of all groups is a permutation of the
input payloads), and (b) a row with no parent key is not dropped: the
group under key k holds exactly the payloads of the rows whose parent key
coerces to k, rows lacking the key coercing to "undefined". -/
theorem claim_c7_amended {α : Type} (children : List (Option String × α)) :
    (flattenGroups (groupChildrenBy children)).Perm (children.map (fun c => c.2))
    ∧ ∀ k, glook (groupChildrenBy children) k =
        (children.filter (fun c => jsKeyString c.1 == k)).map (fun c => c.2) :=
  ⟨flattenGroups_groupChildrenBy children, fun k => glook_groupChildrenBy children k⟩

/-! ### Atomicity (claim C3) -/

/-- C3: every save request either commits every write of the transaction
body and answers 200 with the new state, or, the moment the body throws,
rolls the whole transaction back — the persisted state is exactly the
pre-request state and the response is an error status. -/
theorem claim_c3_atomicity (actor : Principal) (doc : Doc) (db : DB) :
    (∃ db', saveAppDataBody actor doc db = .ok db' ∧
      saveAppData actor doc db = ⟨200, "Datos guardados exitosamente.", db'⟩)
    ∨ (∃ e, saveAppDataBody actor doc db = .error e ∧
      (saveAppData actor doc db).db = db ∧ (saveAppData actor doc db).status ≠ 200) := by
  cases h : saveAppDataBody actor doc db with
  | ok db' => exact .inl ⟨db', rfl, by simp [saveAppData, h]⟩
  | error e =>
    refine .inr ⟨e, rfl, ?_, ?_⟩ <;> simp only [saveAppData, h] <;> split <;> simp

/-! ### Date normalizer (claim C8) -/

/-- C8: the spec-modelled normalizer accepts the dd/mm/yyyy example
truncating to midnight, accepts the ISO example preserving the time,
yields an absent value on unparseable input without failing, and with
keepTime false always truncates to midnight of the parsed calendar day. -/
theorem claim_c8_date_normalizer :
    normalizeDate "19/08/2024" false = some "2024-08-19 00:00:00"
    ∧ normalizeDate "2024-08-19T14:30:00.000Z" true = some "2024-08-19 14:30:00"
    ∧ normalizeDate "not-a-date" false = none
    ∧ ∀ raw s, normalizeDate raw false = some s → ∃ ymd, s = ymd ++ " 00:00:00" := by
  refine ⟨by decide, by decide, by decide, ?_⟩
  intro raw s h
  unfold normalizeDate at h
  cases hp : parseIso raw.data with
  | some p =>
    rw [hp] at h
    refine ⟨pad4 p.year ++ "-" ++ pad2 p.month ++ "-" ++ pad2 p.day, ?_⟩
    injection h with h'
    rw [← h']
    rfl
  | none =>
    rw [hp] at h
    cases hq : parseDmy raw.data with
    | some p =>
      rw [hq] at h
      refine ⟨pad4 p.year ++ "-" ++ pad2 p.month ++ "-" ++ pad2 p.day, ?_⟩
      injection h with h'
      rw [← h']
      rfl
    | none =>
      rw [hq] at h
      cases h

/-- Witness for C8, applying the truncation conjunct at the first
example's input. -/
theorem claim_c8_witness :
    normalizeDate "19/08/2024" false = some "2024-08-19 00:00:00"
    ∧ ∃ ymd, "2024-08-19 00:00:00" = ymd ++ " 00:00:00" :=
  ⟨claim_c8_date_normalizer.1,
    claim_c8_date_normalizer.2.2.2 "19/08/2024" "2024-08-19 00:00:00" claim_c8_date_normalizer.1⟩


/-! ### Shape lemmas: which tables each transaction step can write -/

theorem saveUsersLoop_shape (us : List UserIn) : ∀ db : DB,
    ∃ l, saveUsersLoop us db = { db with users := l } := by
  induction us with
  | nil => intro db; exact ⟨db.users, rfl⟩
  | cons u rest ih =>
    intro db
    obtain ⟨l, h⟩ := ih (saveOneUser db u)
    exact ⟨l, by rw [saveUsersLoop, h]; rfl⟩

theorem saveUsersStep_shape (actor : Principal) (us : List UserIn) (db : DB) :
    ∃ l, saveUsersStep actor us db = { db with users := l } := by
  have h : ∀ X : List UserRow,
      ∃ l, saveUsersLoop us { db with users := X } = { db with users := l } := by
    intro X
    obtain ⟨l, h⟩ := saveUsersLoop_shape us { db with users := X }
    exact ⟨l, by rw [h]⟩
  exact h _

theorem saveUsers_none {actor : Principal} {doc : Doc} {db : DB} (h : doc.users = none) :
    saveUsers actor doc db = .ok db := by
  unfold saveUsers
  rw [h]

theorem saveUsers_ok_shape {actor : Principal} {doc : Doc} {db db' : DB}
    (h : saveUsers actor doc db = .ok db') : ∃ l, db' = { db with users := l } := by
  unfold saveUsers at h
  cases hu : doc.users with
  | none =>
    simp only [hu] at h
    injection h with h
    exact ⟨db.users, h.symm⟩
  | some us =>
    simp only [hu] at h
    split at h
    · cases h
    · injection h with h
      obtain ⟨l, hl⟩ := saveUsersStep_shape actor us db
      exact ⟨l, h ▸ hl⟩

theorem savePlanOne_shape (indId : String) (db : DB) (p : PlanIn) :
    ∃ a b, savePlanOne indId db p = { db with action_plans := a, action_plan_updates := b } := by
  simp only [savePlanOne]
  cases p.updates with
  | none => exact ⟨_, _, rfl⟩
  | some us =>
    by_cases hl : us.length > 0
    · simp only [if_pos hl]
      exact ⟨_, _, rfl⟩
    · simp only [if_neg hl]
      exact ⟨_, _, rfl⟩

theorem plansFold_shape (indId : String) (plans : List PlanIn) : ∀ db : DB,
    ∃ a b, plans.foldl (savePlanOne indId) db =
      { db with action_plans := a, action_plan_updates := b } := by
  induction plans with
  | nil => intro db; exact ⟨_, _, rfl⟩
  | cons p rest ih =>
    intro db
    obtain ⟨a1, b1, h1⟩ := savePlanOne_shape indId db p
    obtain ⟨a2, b2, h2⟩ := ih (savePlanOne indId db p)
    refine ⟨a2, b2, ?_⟩
    rw [List.foldl_cons, h2, h1]

theorem savePlans_shape (indId : String) (ap : Option (List PlanIn)) (db : DB) :
    ∃ a b, savePlans indId ap db = { db with action_plans := a, action_plan_updates := b } := by
  simp only [savePlans]
  cases ap with
  | none => exact ⟨_, _, rfl⟩
  | some plans =>
    by_cases hl : plans.length > 0
    · simp only [if_pos hl]
      have key : ∀ db0 : DB,
          (∃ X Y, db0 = { db with action_plan_updates := X, action_plans := Y }) →
          ∃ a b, plans.foldl (savePlanOne indId) db0 =
            { db with action_plans := a, action_plan_updates := b } := by
        rintro db0 ⟨X, Y, rfl⟩
        obtain ⟨a, b, h⟩ := plansFold_shape indId plans _
        exact ⟨a, b, by rw [h]⟩
      exact key _ ⟨_, _, rfl⟩
    · simp only [if_neg hl]
      exact ⟨_, _, rfl⟩

theorem writeIndicator_shape (ind : IndicatorIn) (db : DB) :
    ∃ i hd gl ob rk ap apu att au, writeIndicator ind db =
      { db with
        indicators := i, historical_data := hd, goals := gl, observations := ob,
        risks := rk, action_plans := ap, action_plan_updates := apu,
        attachments := att, audit_logs := au } := by
  have key : ∀ (db0 : DB),
      (∃ i hd gl ob rk att au, db0 =
        { db with
          indicators := i, historical_data := hd, goals := gl, observations := ob,
          risks := rk, attachments := att, audit_logs := au }) →
      ∃ i2 hd2 gl2 ob2 rk2 ap2 apu2 att2 au2, savePlans ind.id ind.actionPlans db0 =
        { db with
          indicators := i2, historical_data := hd2, goals := gl2, observations := ob2,
          risks := rk2, action_plans := ap2, action_plan_updates := apu2,
          attachments := att2, audit_logs := au2 } := by
    rintro db0 ⟨i, hd, gl, ob, rk, att, au, rfl⟩
    obtain ⟨a, b, h⟩ := savePlans_shape ind.id ind.actionPlans _
    exact ⟨i, hd, gl, ob, rk, a, b, att, au, by rw [h]⟩
  exact key _ ⟨_, _, _, _, _, _, _, rfl⟩

theorem saveOneIndicator_ok {actor : Principal} {db : DB} {ind : IndicatorIn} {db' : DB}
    (h : saveOneIndicator actor db ind = .ok db') : db' = writeIndicator ind db := by
  simp only [saveOneIndicator] at h
  split at h
  · cases h
  · injection h with h
    exact h.symm

theorem saveIndicatorsLoop_shape (actor : Principal) (inds : List IndicatorIn) : ∀ {db db' : DB},
    saveIndicatorsLoop actor inds db = .ok db' →
    ∃ i hd gl ob rk ap apu att au, db' =
      { db with
        indicators := i, historical_data := hd, goals := gl, observations := ob,
        risks := rk, action_plans := ap, action_plan_updates := apu,
        attachments := att, audit_logs := au } := by
  induction inds with
  | nil =>
    intro db db' h
    simp only [saveIndicatorsLoop, Except.ok.injEq] at h
    subst h
    exact ⟨_, _, _, _, _, _, _, _, _, rfl⟩
  | cons ind rest ih =>
    intro db db' h
    rw [saveIndicatorsLoop] at h
    cases hs : saveOneIndicator actor db ind with
    | error e => rw [hs] at h; cases h
    | ok db1 =>
      rw [hs] at h
      obtain ⟨i1, hd1, gl1, ob1, rk1, ap1, apu1, att1, au1, h1⟩ := ih h
      have h2 := saveOneIndicator_ok hs
      subst h2
      obtain ⟨i3, hd3, gl3, ob3, rk3, ap3, apu3, att3, au3, h3⟩ := writeIndicator_shape ind db
      rw [h3] at h1
      exact ⟨_, _, _, _, _, _, _, _, _, h1⟩

theorem saveIndicators_none {actor : Principal} {doc : Doc} {db : DB}
    (h : doc.indicators = none) : saveIndicators actor doc db = .ok db := by
  unfold saveIndicators
  rw [h]

theorem saveIndicators_ok_shape {actor : Principal} {doc : Doc} {db db' : DB}
    (h : saveIndicators actor doc db = .ok db') :
    ∃ i hd gl ob rk ap apu att au, db' =
      { db with
        indicators := i, historical_data := hd, goals := gl, observations := ob,
        risks := rk, action_plans := ap, action_plan_updates := apu,
        attachments := att, audit_logs := au } := by
  unfold saveIndicators at h
  cases hu : doc.indicators with
  | none =>
    simp only [hu, Except.ok.injEq] at h
    subst h
    exact ⟨_, _, _, _, _, _, _, _, _, rfl⟩
  | some inds =>
    simp only [hu] at h
    exact saveIndicatorsLoop_shape actor inds h

theorem saveStrategicGoals_none {actor : Principal} {doc : Doc} {db : DB}
    (h : doc.strategicGoals = none) : saveStrategicGoals actor doc db = .ok db := by
  unfold saveStrategicGoals
  rw [h]

theorem saveStrategicGoals_ok_shape {actor : Principal} {doc : Doc} {db db' : DB}
    (h : saveStrategicGoals actor doc db = .ok db') :
    ∃ l, db' = { db with strategic_goals := l } := by
  unfold saveStrategicGoals at h
  cases hu : doc.strategicGoals with
  | none =>
    simp only [hu, Except.ok.injEq] at h
    exact ⟨db.strategic_goals, h.symm⟩
  | some gs =>
    simp only [hu] at h
    split at h
    · cases h
    · injection h with h
      exact ⟨_, h.symm⟩

theorem saveMeetingOne_shape (db : DB) (m : MeetingIn) :
    ∃ a b, saveMeetingOne db m = { db with meetings := a, decisions := b } := by
  simp only [saveMeetingOne]
  cases m.decisions with
  | none => exact ⟨_, _, rfl⟩
  | some ds =>
    by_cases hl : ds.length > 0
    · simp only [if_pos hl]
      exact ⟨_, _, rfl⟩
    · simp only [if_neg hl]
      exact ⟨_, _, rfl⟩

theorem meetingsFold_shape (ms : List MeetingIn) : ∀ db : DB,
    ∃ a b, ms.foldl saveMeetingOne db = { db with meetings := a, decisions := b } := by
  induction ms with
  | nil => intro db; exact ⟨_, _, rfl⟩
  | cons m rest ih =>
    intro db
    obtain ⟨a1, b1, h1⟩ := saveMeetingOne_shape db m
    obtain ⟨a2, b2, h2⟩ := ih (saveMeetingOne db m)
    refine ⟨a2, b2, ?_⟩
    rw [List.foldl_cons, h2, h1]

theorem saveMeetings_none {actor : Principal} {doc : Doc} {db : DB}
    (h : doc.meetings = none) : saveMeetings actor doc db = .ok db := by
  unfold saveMeetings
  rw [h]

theorem saveMeetings_ok_shape {actor : Principal} {doc : Doc} {db db' : DB}
    (h : saveMeetings actor doc db = .ok db') :
    ∃ a b, db' = { db with meetings := a, decisions := b } := by
  unfold saveMeetings at h
  cases hu : doc.meetings with
  | none =>
    simp only [hu, Except.ok.injEq] at h
    exact ⟨db.meetings, db.decisions, h.symm⟩
  | some ms =>
    simp only [hu] at h
    split at h
    · cases h
    · injection h with h
      obtain ⟨a, b, hf⟩ := meetingsFold_shape ms { db with decisions := [], meetings := [] }
      exact ⟨a, b, by rw [← h, hf]⟩

theorem saveThreadOne_shape (db : DB) (t : ThreadIn) :
    ∃ a b, saveThreadOne db t = { db with discussion_threads := a, thread_replies := b } := by
  simp only [saveThreadOne]
  cases t.replies with
  | none => exact ⟨_, _, rfl⟩
  | some rs =>
    by_cases hl : rs.length > 0
    · simp only [if_pos hl]
      exact ⟨_, _, rfl⟩
    · simp only [if_neg hl]
      exact ⟨_, _, rfl⟩

theorem threadsFold_shape (ts : List ThreadIn) : ∀ db : DB,
    ∃ a b, ts.foldl saveThreadOne db = { db with discussion_threads := a, thread_replies := b } := by
  induction ts with
  | nil => intro db; exact ⟨_, _, rfl⟩
  | cons t rest ih =>
    intro db
    obtain ⟨a1, b1, h1⟩ := saveThreadOne_shape db t
    obtain ⟨a2, b2, h2⟩ := ih (saveThreadOne db t)
    refine ⟨a2, b2, ?_⟩
    rw [List.foldl_cons, h2, h1]

theorem saveThreads_none {doc : Doc} {db : DB}
    (h : doc.discussionThreads = none) : saveThreads doc db = .ok db := by
  unfold saveThreads
  rw [h]

theorem saveThreads_ok_shape {doc : Doc} {db db' : DB}
    (h : saveThreads doc db = .ok db') :
    ∃ a b, db' = { db with discussion_threads := a, thread_replies := b } := by
  unfold saveThreads at h
  cases hu : doc.discussionThreads with
  | none =>
    simp only [hu, Except.ok.injEq] at h
    exact ⟨db.discussion_threads, db.thread_replies, h.symm⟩
  | some ts =>
    simp only [hu, Except.ok.injEq] at h
    obtain ⟨a, b, hf⟩ := threadsFold_shape ts { db with thread_replies := [], discussion_threads := [] }
    exact ⟨a, b, by rw [← h, hf]⟩

theorem saveNotifications_none {doc : Doc} {db : DB}
    (h : doc.notifications = none) : saveNotifications doc db = .ok db := by
  unfold saveNotifications
  rw [h]

theorem saveNotifications_ok_shape {doc : Doc} {db db' : DB}
    (h : saveNotifications doc db = .ok db') :
    ∃ l, db' = { db with notifications := l } := by
  unfold saveNotifications at h
  cases hu : doc.notifications with
  | none =>
    simp only [hu, Except.ok.injEq] at h
    exact ⟨db.notifications, h.symm⟩
  | some ns =>
    simp only [hu, Except.ok.injEq] at h
    exact ⟨_, h.symm⟩

/-! ### Error lemmas: every thrown error is a 403 authorization error -/

theorem saveUsers_error {actor : Principal} {doc : Doc} {db : DB} {e : SaveErr}
    (h : saveUsers actor doc db = .error e) : e.status = 403 := by
  unfold saveUsers at h
  cases hu : doc.users with
  | none => simp only [hu] at h; cases h
  | some us =>
    simp only [hu] at h
    split at h
    · injection h with h
      rw [← h]
    · cases h

theorem saveOneIndicator_error {actor : Principal} {db : DB} {ind : IndicatorIn} {e : SaveErr}
    (h : saveOneIndicator actor db ind = .error e) : e.status = 403 := by
  simp only [saveOneIndicator] at h
  split at h
  · injection h with h
    rw [← h]
  · cases h

theorem saveIndicatorsLoop_error (actor : Principal) (inds : List IndicatorIn) :
    ∀ {db : DB} {e : SaveErr}, saveIndicatorsLoop actor inds db = .error e → e.status = 403 := by
  induction inds with
  | nil => intro db e h; cases h
  | cons ind rest ih =>
    intro db e h
    rw [saveIndicatorsLoop] at h
    cases hs : saveOneIndicator actor db ind with
    | error e2 =>
      rw [hs] at h
      injection h with h
      subst h
      exact saveOneIndicator_error hs
    | ok db1 =>
      rw [hs] at h
      exact ih h

theorem saveIndicators_error {actor : Principal} {doc : Doc} {db : DB} {e : SaveErr}
    (h : saveIndicators actor doc db = .error e) : e.status = 403 := by
  unfold saveIndicators at h
  cases hu : doc.indicators with
  | none => simp only [hu] at h; cases h
  | some inds =>
    simp only [hu] at h
    exact saveIndicatorsLoop_error actor inds h

theorem saveStrategicGoals_error {actor : Principal} {doc : Doc} {db : DB} {e : SaveErr}
    (h : saveStrategicGoals actor doc db = .error e) : e.status = 403 := by
  unfold saveStrategicGoals at h
  cases hu : doc.strategicGoals with
  | none => simp only [hu] at h; cases h
  | some gs =>
    simp only [hu] at h
    split at h
    · injection h with h
      rw [← h]
    · cases h

theorem saveMeetings_error {actor : Principal} {doc : Doc} {db : DB} {e : SaveErr}
    (h : saveMeetings actor doc db = .error e) : e.status = 403 := by
  unfold saveMeetings at h
  cases hu : doc.meetings with
  | none => simp only [hu] at h; cases h
  | some ms =>
    simp only [hu] at h
    split at h
    · injection h with h
      rw [← h]
    · cases h

theorem saveThreads_never_error {doc : Doc} {db : DB} {e : SaveErr}
    (h : saveThreads doc db = .error e) : False := by
  unfold saveThreads at h
  cases hu : doc.discussionThreads with
  | none => simp only [hu] at h; cases h
  | some ts => simp only [hu] at h; cases h

theorem saveNotifications_never_error {doc : Doc} {db : DB} {e : SaveErr}
    (h : saveNotifications doc db = .error e) : False := by
  unfold saveNotifications at h
  cases hu : doc.notifications with
  | none => simp only [hu] at h; cases h
  | some ns => simp only [hu] at h; cases h

theorem saveAppDataBody_error {actor : Principal} {doc : Doc} {db : DB} {e : SaveErr}
    (h : saveAppDataBody actor doc db = .error e) : e.status = 403 := by
  unfold saveAppDataBody at h
  cases h1 : saveUsers actor doc db with
  | error e1 =>
    simp only [h1] at h
    injection h with h
    subst h
    exact saveUsers_error h1
  | ok d1 =>
    simp only [h1] at h
    cases h2 : saveIndicators actor doc d1 with
    | error e2 =>
      simp only [h2] at h
      injection h with h
      subst h
      exact saveIndicators_error h2
    | ok d2 =>
      simp only [h2] at h
      cases h3 : saveStrategicGoals actor doc d2 with
      | error e3 =>
        simp only [h3] at h
        injection h with h
        subst h
        exact saveStrategicGoals_error h3
      | ok d3 =>
        simp only [h3] at h
        cases h4 : saveMeetings actor doc d3 with
        | error e4 =>
          simp only [h4] at h
          injection h with h
          subst h
          exact saveMeetings_error h4
        | ok d4 =>
          simp only [h4] at h
          cases h5 : saveThreads doc d4 with
          | error e5 => exact absurd h5 (fun hh => saveThreads_never_error hh)
          | ok d5 =>
            simp only [h5] at h
            exact absurd h (fun hh => saveNotifications_never_error hh)

/-! ### Decomposition of a committed transaction into its steps -/

theorem saveAppDataBody_ok_decomp {actor : Principal} {doc : Doc} {db db' : DB}
    (h : saveAppDataBody actor doc db = .ok db') :
    ∃ d1 d2 d3 d4 d5, saveUsers actor doc db = .ok d1 ∧ saveIndicators actor doc d1 = .ok d2 ∧
      saveStrategicGoals actor doc d2 = .ok d3 ∧ saveMeetings actor doc d3 = .ok d4 ∧
      saveThreads doc d4 = .ok d5 ∧ saveNotifications doc d5 = .ok db' := by
  unfold saveAppDataBody at h
  cases h1 : saveUsers actor doc db with
  | error e1 => simp only [h1] at h; cases h
  | ok d1 =>
    simp only [h1] at h
    cases h2 : saveIndicators actor doc d1 with
    | error e2 => simp only [h2] at h; cases h
    | ok d2 =>
      simp only [h2] at h
      cases h3 : saveStrategicGoals actor doc d2 with
      | error e3 => simp only [h3] at h; cases h
      | ok d3 =>
        simp only [h3] at h
        cases h4 : saveMeetings actor doc d3 with
        | error e4 => simp only [h4] at h; cases h
        | ok d4 =>
          simp only [h4] at h
          cases h5 : saveThreads doc d4 with
          | error e5 => simp only [h5] at h; cases h
          | ok d5 =>
            simp only [h5] at h
            exact ⟨d1, d2, d3, d4, d5, rfl, h2, h3, h4, h5, h⟩

theorem saveAppData_ok_body {actor : Principal} {doc : Doc} {db : DB}
    (h : (saveAppData actor doc db).status = 200) :
    saveAppDataBody actor doc db = .ok (saveAppData actor doc db).db := by
  cases hb : saveAppDataBody actor doc db with
  | ok db' => simp [saveAppData, hb]
  | error e =>
    exfalso
    have hne : (saveAppData actor doc db).status ≠ 200 := by
      simp only [saveAppData, hb]
      split
      · simp
      · simp
    exact hne h

/-! ### Frame effect (claim C9) -/

/-- C9: a successful save touches only the tables backing the collections
present in the submission; every table backing an absent collection — and
its child tables — holds exactly the same rows afterwards. -/
theorem claim_c9_frame (actor : Principal) (doc : Doc) (db : DB)
    (hok : (saveAppData actor doc db).status = 200) :
    (doc.users = none → (saveAppData actor doc db).db.users = db.users)
    ∧ (doc.strategicGoals = none →
        (saveAppData actor doc db).db.strategic_goals = db.strategic_goals)
    ∧ (doc.indicators = none →
        (saveAppData actor doc db).db.indicators = db.indicators
        ∧ (saveAppData actor doc db).db.historical_data = db.historical_data
        ∧ (saveAppData actor doc db).db.goals = db.goals
        ∧ (saveAppData actor doc db).db.observations = db.observations
        ∧ (saveAppData actor doc db).db.risks = db.risks
        ∧ (saveAppData actor doc db).db.action_plans = db.action_plans
        ∧ (saveAppData actor doc db).db.action_plan_updates = db.action_plan_updates
        ∧ (saveAppData actor doc db).db.attachments = db.attachments
        ∧ (saveAppData actor doc db).db.audit_logs = db.audit_logs)
    ∧ (doc.meetings = none →
        (saveAppData actor doc db).db.meetings = db.meetings
        ∧ (saveAppData actor doc db).db.decisions = db.decisions)
    ∧ (doc.discussionThreads = none →
        (saveAppData actor doc db).db.discussion_threads = db.discussion_threads
        ∧ (saveAppData actor doc db).db.thread_replies = db.thread_replies)
    ∧ (doc.notifications = none →
        (saveAppData actor doc db).db.notifications = db.notifications) := by
  have hbody := saveAppData_ok_body hok
  obtain ⟨d1, d2, d3, d4, d5, h1, h2, h3, h4, h5, h6⟩ := saveAppDataBody_ok_decomp hbody
  obtain ⟨u1, hs1⟩ := saveUsers_ok_shape h1
  obtain ⟨i2, hd2, gl2, ob2, rk2, ap2, apu2, att2, au2, hs2⟩ := saveIndicators_ok_shape h2
  obtain ⟨g3, hs3⟩ := saveStrategicGoals_ok_shape h3
  obtain ⟨m4, dc4, hs4⟩ := saveMeetings_ok_shape h4
  obtain ⟨t5, r5, hs5⟩ := saveThreads_ok_shape h5
  obtain ⟨n6, hs6⟩ := saveNotifications_ok_shape h6
  refine ⟨?_, ?_, ?_, ?_, ?_, ?_⟩
  · intro hnone
    have hid : db = d1 := Except.ok.inj ((saveUsers_none hnone).symm.trans h1)
    simp [hs6, hs5, hs4, hs3, hs2, ← hid]
  · intro hnone
    have hid : d2 = d3 := Except.ok.inj ((saveStrategicGoals_none hnone).symm.trans h3)
    simp [hs6, hs5, hs4, ← hid, hs2, hs1]
  · intro hnone
    have hid : d1 = d2 := Except.ok.inj ((saveIndicators_none hnone).symm.trans h2)
    refine ⟨?_, ?_, ?_, ?_, ?_, ?_, ?_, ?_, ?_⟩ <;>
      simp [hs6, hs5, hs4, hs3, ← hid, hs1]
  · intro hnone
    have hid : d3 = d4 := Except.ok.inj ((saveMeetings_none hnone).symm.trans h4)
    refine ⟨?_, ?_⟩ <;> simp [hs6, hs5, ← hid, hs3, hs2, hs1]
  · intro hnone
    have hid : d4 = d5 := Except.ok.inj ((saveThreads_none hnone).symm.trans h5)
    refine ⟨?_, ?_⟩ <;> simp [hs6, ← hid, hs4, hs3, hs2, hs1]
  · intro hnone
    have hid : d5 = (saveAppData actor doc db).db :=
      Except.ok.inj ((saveNotifications_none hnone).symm.trans h6)
    simp [← hid, hs5, hs4, hs3, hs2, hs1]

/-- Witness for C9: an empty submission commits and leaves the users table
unchanged. -/
theorem claim_c9_witness :
    (saveAppData adminFx {} emptyDB).status = 200
    ∧ (saveAppData adminFx {} emptyDB).db.users = emptyDB.users :=
  ⟨by decide, (claim_c9_frame adminFx {} emptyDB (by decide)).1 rfl⟩

/-! ### Authorization (claim C2) -/

theorem find?_map_upsert_ne (xs : List IndicatorRow) (r : IndicatorRow) (j : String)
    (hne : j ≠ r.id) :
    (xs.map (fun x => if x.id == r.id then r else x)).find? (fun x => x.id == j) =
      xs.find? (fun x => x.id == j) := by
  induction xs with
  | nil => rfl
  | cons x xs ih =>
    simp only [List.map_cons]
    by_cases hx : x.id == r.id
    · have hxr : x.id = r.id := eq_of_beq hx
      have hrj : (r.id == j) = false := beq_eq_false_iff_ne.mpr (fun e => hne e.symm)
      have hxj : (x.id == j) = false := by rw [hxr]; exact hrj
      rw [if_pos hx, List.find?_cons_of_neg _ (by simp [hrj]),
        List.find?_cons_of_neg _ (by simp [hxj])]
      exact ih
    · rw [if_neg hx]
      by_cases hxj : x.id == j
      · rw [List.find?_cons_of_pos _ (by simpa using hxj),
          List.find?_cons_of_pos _ (by simpa using hxj)]
      · rw [List.find?_cons_of_neg _ (by simpa using hxj),
          List.find?_cons_of_neg _ (by simpa using hxj)]
        exact ih

theorem find?_upsertIndicator_ne (tbl : List IndicatorRow) (r : IndicatorRow) (j : String)
    (hne : j ≠ r.id) :
    (upsertIndicatorRow tbl r).find? (fun x => x.id == j) = tbl.find? (fun x => x.id == j) := by
  unfold upsertIndicatorRow
  split
  · exact find?_map_upsert_ne tbl r j hne
  · rw [List.find?_append]
    have hnone : List.find? (fun x => x.id == j) [r] = none := by
      simp [beq_eq_false_iff_ne.mpr (fun e => hne e.symm)]
    rw [hnone, Option.or_none]

theorem savePlans_indicators (indId : String) (ap : Option (List PlanIn)) (db : DB) :
    (savePlans indId ap db).indicators = db.indicators := by
  obtain ⟨a, b, h⟩ := savePlans_shape indId ap db
  rw [h]

theorem writeIndicator_indicators (ind : IndicatorIn) (db : DB) :
    (writeIndicator ind db).indicators =
      upsertIndicatorRow db.indicators
        ⟨ind.id, ind.principle, ind.name, ind.calculation, ind.purpose,
          ind.responsibleArea, jsOr ind.strategicGoalId⟩ := by
  simp only [writeIndicator, savePlans_indicators]

theorem writeIndicator_find_ne (ind : IndicatorIn) (db : DB) (j : String) (hne : j ≠ ind.id) :
    (writeIndicator ind db).indicators.find? (fun x => x.id == j) =
      db.indicators.find? (fun x => x.id == j) := by
  rw [writeIndicator_indicators]
  exact find?_upsertIndicator_ne _ _ _ hne

theorem saveIndicatorsLoop_fails (actor : Principal) (hrole : actor.role = "Gerente de Área") :
    ∀ (inds : List IndicatorIn) (db : DB),
      (∃ ind ∈ inds, ∃ o, db.indicators.find? (fun r => r.id == ind.id) = some o ∧
        o.responsibleArea ≠ some actor.area) →
      ∃ e, saveIndicatorsLoop actor inds db = .error e := by
  intro inds
  induction inds with
  | nil =>
    rintro db ⟨ind, hmem, _⟩
    exact absurd hmem (List.not_mem_nil ind)
  | cons i0 rest ih =>
    rintro db ⟨ind, hmem, o, hfind, harea⟩
    rw [saveIndicatorsLoop]
    cases hs : saveOneIndicator actor db i0 with
    | error e => exact ⟨e, rfl⟩
    | ok db1 =>
      have hguard : ¬ (((actor.role == "Gerente de Área") &&
          (match db.indicators.find? (fun r => r.id == i0.id) with
           | some o => o.responsibleArea != some actor.area
           | none => false)) = true) := by
        intro hg
        simp only [saveOneIndicator] at hs
        rw [if_pos hg] at hs
        cases hs
      have hdb1 : db1 = writeIndicator i0 db := saveOneIndicator_ok hs
      have hrb : (actor.role == "Gerente de Área") = true := by
        simp [hrole]
      cases hmem with
      | head =>
        exfalso
        apply hguard
        simp only [hrb, Bool.true_and, hfind]
        simpa using harea
      | tail _ hmem =>
        by_cases hid : ind.id = i0.id
        · exfalso
          apply hguard
          simp only [hrb, Bool.true_and, ← hid, hfind]
          simpa using harea
        · have hpres : db1.indicators.find? (fun r => r.id == ind.id) = some o := by
            rw [hdb1, writeIndicator_find_ne i0 db ind.id hid]
            exact hfind
          obtain ⟨e, he⟩ := ih db1 ⟨ind, hmem, o, hpres, harea⟩
          exact ⟨e, he⟩

theorem body_err_users {actor : Principal} {doc : Doc} {db : DB} {e : SaveErr}
    (h : saveUsers actor doc db = .error e) : saveAppDataBody actor doc db = .error e := by
  unfold saveAppDataBody
  rw [h]

theorem body_err_indicators {actor : Principal} {doc : Doc} {db d1 : DB} {e : SaveErr}
    (h1 : saveUsers actor doc db = .ok d1)
    (h2 : saveIndicators actor doc d1 = .error e) :
    saveAppDataBody actor doc db = .error e := by
  unfold saveAppDataBody
  rw [h1]
  dsimp only
  rw [h2]

theorem body_err_goals {actor : Principal} {doc : Doc} {db d1 d2 : DB} {e : SaveErr}
    (h1 : saveUsers actor doc db = .ok d1)
    (h2 : saveIndicators actor doc d1 = .ok d2)
    (h3 : saveStrategicGoals actor doc d2 = .error e) :
    saveAppDataBody actor doc db = .error e := by
  unfold saveAppDataBody
  rw [h1]
  dsimp only
  rw [h2]
  dsimp only
  rw [h3]

theorem body_err_meetings {actor : Principal} {doc : Doc} {db d1 d2 d3 : DB} {e : SaveErr}
    (h1 : saveUsers actor doc db = .ok d1)
    (h2 : saveIndicators actor doc d1 = .ok d2)
    (h3 : saveStrategicGoals actor doc d2 = .ok d3)
    (h4 : saveMeetings actor doc d3 = .error e) :
    saveAppDataBody actor doc db = .error e := by
  unfold saveAppDataBody
  rw [h1]
  dsimp only
  rw [h2]
  dsimp only
  rw [h3]
  dsimp only
  rw [h4]

theorem c2_users_guard (actor : Principal) (doc : Doc) (db : DB) (us : List UserIn)
    (hus : doc.users = some us) (hrole : actor.role ≠ "Administrador") :
    saveAppData actor doc db = ⟨403, "No tiene permiso para gestionar usuarios.", db⟩ := by
  have hu : saveUsers actor doc db =
      .error ⟨403, "No tiene permiso para gestionar usuarios."⟩ := by
    unfold saveUsers
    simp only [hus]
    rw [if_pos hrole]
  simp only [saveAppData, body_err_users hu]
  rfl

theorem c2_goals_guard (actor : Principal) (doc : Doc) (db : DB) (gs : List GoalIn)
    (hgs : doc.strategicGoals = some gs) (hrole : actor.role ≠ "Administrador") :
    (saveAppData actor doc db).status = 403 ∧ (saveAppData actor doc db).db = db := by
  have hfail : ∃ e, saveAppDataBody actor doc db = .error e := by
    cases h1 : saveUsers actor doc db with
    | error e => exact ⟨e, body_err_users h1⟩
    | ok d1 =>
      cases h2 : saveIndicators actor doc d1 with
      | error e => exact ⟨e, body_err_indicators h1 h2⟩
      | ok d2 =>
        refine ⟨⟨403, "No tiene permiso para gestionar Objetivos Estratégicos."⟩,
          body_err_goals h1 h2 ?_⟩
        unfold saveStrategicGoals
        simp only [hgs]
        rw [if_pos hrole]
  obtain ⟨e, he⟩ := hfail
  have h403 := saveAppDataBody_error he
  constructor <;> simp [saveAppData, he, h403]

theorem c2_meetings_guard (actor : Principal) (doc : Doc) (db : DB) (ms : List MeetingIn)
    (hms : doc.meetings = some ms) (hra : actor.role ≠ "Administrador")
    (hrj : actor.role ≠ "Junta de Vigilancia") :
    (saveAppData actor doc db).status = 403 ∧ (saveAppData actor doc db).db = db := by
  have hfail : ∃ e, saveAppDataBody actor doc db = .error e := by
    cases h1 : saveUsers actor doc db with
    | error e => exact ⟨e, body_err_users h1⟩
    | ok d1 =>
      cases h2 : saveIndicators actor doc d1 with
      | error e => exact ⟨e, body_err_indicators h1 h2⟩
      | ok d2 =>
        cases h3 : saveStrategicGoals actor doc d2 with
        | error e => exact ⟨e, body_err_goals h1 h2 h3⟩
        | ok d3 =>
          refine ⟨⟨403, "No tiene permiso para gestionar reuniones."⟩,
            body_err_meetings h1 h2 h3 ?_⟩
          unfold saveMeetings
          simp only [hms]
          rw [if_pos (fun hor => hor.elim hra hrj)]
  obtain ⟨e, he⟩ := hfail
  have h403 := saveAppDataBody_error he
  constructor <;> simp [saveAppData, he, h403]

theorem c2_indicator_area_abort (actor : Principal) (doc : Doc) (db : DB)
    (inds : List IndicatorIn) (ind : IndicatorIn) (o : IndicatorRow)
    (hrole : actor.role = "Gerente de Área") (hinds : doc.indicators = some inds)
    (hmem : ind ∈ inds)
    (hfind : db.indicators.find? (fun r => r.id == ind.id) = some o)
    (harea : o.responsibleArea ≠ some actor.area) :
    (saveAppData actor doc db).status = 403 ∧ (saveAppData actor doc db).db = db := by
  have hfail : ∃ e, saveAppDataBody actor doc db = .error e := by
    cases h1 : saveUsers actor doc db with
    | error e => exact ⟨e, body_err_users h1⟩
    | ok d1 =>
      have hd1 : d1 = db := by
        cases hu : doc.users with
        | none =>
          rw [saveUsers_none hu] at h1
          exact (Except.ok.inj h1).symm
        | some us =>
          exfalso
          unfold saveUsers at h1
          simp only [hu] at h1
          rw [if_pos (by rw [hrole]; decide)] at h1
          cases h1
      subst hd1
      obtain ⟨e, he⟩ := saveIndicatorsLoop_fails actor hrole inds d1 ⟨ind, hmem, o, hfind, harea⟩
      refine ⟨e, body_err_indicators h1 ?_⟩
      unfold saveIndicators
      simp only [hinds]
      exact he
  obtain ⟨e, he⟩ := hfail
  have h403 := saveAppDataBody_error he
  constructor <;> simp [saveAppData, he, h403]

theorem c2_indicator_area_message (actor : Principal) (doc : Doc) (db : DB)
    (inds : List IndicatorIn) (ind : IndicatorIn) (o : IndicatorRow)
    (hrole : actor.role = "Gerente de Área") (husers : doc.users = none)
    (hinds : doc.indicators = some (ind :: inds))
    (hfind : db.indicators.find? (fun r => r.id == ind.id) = some o)
    (harea : o.responsibleArea ≠ some actor.area) :
    saveAppData actor doc db =
      ⟨403, "No tiene permiso para editar el indicador \"" ++ ind.name ++ "\".", db⟩ := by
  have hone : saveOneIndicator actor db ind =
      .error ⟨403, "No tiene permiso para editar el indicador \"" ++ ind.name ++ "\"."⟩ := by
    simp only [saveOneIndicator]
    rw [if_pos ?_]
    simp only [hrole, hfind]
    simpa using harea
  have hind : saveIndicators actor doc db =
      .error ⟨403, "No tiene permiso para editar el indicador \"" ++ ind.name ++ "\"."⟩ := by
    unfold saveIndicators
    simp only [hinds]
    rw [saveIndicatorsLoop, hone]
  simp only [saveAppData, body_err_indicators (saveUsers_none husers) hind]
  rfl

/-- C2: collection-level guards — a submission containing users or
strategic goals by a non-Administrator, or meetings by a principal who is
neither Administrator nor the oversight role, fails with 403 and leaves
storage unchanged; and per-record indicator authorization — an Area
Manager submitting an indicator whose stored responsibleArea differs from
their area aborts the entire save with 403 and zero persisted changes,
the thrown error naming the offending record when it is the first step to
fail. -/
theorem claim_c2_authorization :
    (∀ (actor : Principal) (doc : Doc) (db : DB) (us : List UserIn),
      doc.users = some us → actor.role ≠ "Administrador" →
      saveAppData actor doc db = ⟨403, "No tiene permiso para gestionar usuarios.", db⟩)
    ∧ (∀ (actor : Principal) (doc : Doc) (db : DB) (gs : List GoalIn),
      doc.strategicGoals = some gs → actor.role ≠ "Administrador" →
      (saveAppData actor doc db).status = 403 ∧ (saveAppData actor doc db).db = db)
    ∧ (∀ (actor : Principal) (doc : Doc) (db : DB) (ms : List MeetingIn),
      doc.meetings = some ms → actor.role ≠ "Administrador" →
      actor.role ≠ "Junta de Vigilancia" →
      (saveAppData actor doc db).status = 403 ∧ (saveAppData actor doc db).db = db)
    ∧ (∀ (actor : Principal) (doc : Doc) (db : DB) (inds : List IndicatorIn)
        (ind : IndicatorIn) (o : IndicatorRow),
      actor.role = "Gerente de Área" → doc.indicators = some inds → ind ∈ inds →
      db.indicators.find? (fun r => r.id == ind.id) = some o →
      o.responsibleArea ≠ some actor.area →
      (saveAppData actor doc db).status = 403 ∧ (saveAppData actor doc db).db = db)
    ∧ (∀ (actor : Principal) (doc : Doc) (db : DB) (inds : List IndicatorIn)
        (ind : IndicatorIn) (o : IndicatorRow),
      actor.role = "Gerente de Área" → doc.users = none →
      doc.indicators = some (ind :: inds) →
      db.indicators.find? (fun r => r.id == ind.id) = some o →
      o.responsibleArea ≠ some actor.area →
      saveAppData actor doc db =
        ⟨403, "No tiene permiso para editar el indicador \"" ++ ind.name ++ "\".", db⟩) :=
  ⟨c2_users_guard, c2_goals_guard, c2_meetings_guard,
    fun actor doc db inds ind o h1 h2 h3 h4 h5 =>
      c2_indicator_area_abort actor doc db inds ind o h1 h2 h3 h4 h5,
    fun actor doc db inds ind o h1 h2 h3 h4 h5 =>
      c2_indicator_area_message actor doc db inds ind o h1 h2 h3 h4 h5⟩

/-- Witness for C2: the Finance Area Manager submitting stored indicator X
whose responsibleArea is Operations gets the 403 naming indicator X and
the database is left untouched. -/
theorem claim_c2_witness :
    saveAppData gerenteFx docIndXFx dbIndXFx =
      ⟨403, "No tiene permiso para editar el indicador \"" ++ indInXFx.name ++ "\".", dbIndXFx⟩ :=
  claim_c2_authorization.2.2.2.2 gerenteFx docIndXFx dbIndXFx [] indInXFx indRowXFx
    rfl rfl rfl (by decide) (by decide)

/-! ### Users diff-upsert (claim C4) -/

theorem mem_upsertUserRow (tbl : List UserRow) (r : UserRow) (i : String) :
    (∃ x ∈ upsertUserRow tbl r, x.id = i) ↔ (r.id = i ∨ ∃ x ∈ tbl, x.id = i) := by
  unfold upsertUserRow
  split
  · rename_i hany
    constructor
    · rintro ⟨x, hx, hid⟩
      obtain ⟨y, hy, hxy⟩ := List.mem_map.mp hx
      by_cases hyr : y.id == r.id
      · rw [if_pos hyr] at hxy
        exact .inl (hxy ▸ hid)
      · rw [if_neg hyr] at hxy
        exact .inr ⟨y, hy, hxy ▸ hid⟩
    · rintro (hri | ⟨x, hx, hid⟩)
      · obtain ⟨y, hy, hyr⟩ := List.any_eq_true.mp hany
        exact ⟨r, List.mem_map.mpr ⟨y, hy, if_pos hyr⟩, hri⟩
      · by_cases hxr : x.id == r.id
        · refine ⟨r, List.mem_map.mpr ⟨x, hx, if_pos hxr⟩, ?_⟩
          rw [← eq_of_beq hxr]
          exact hid
        · exact ⟨x, List.mem_map.mpr ⟨x, hx, if_neg hxr⟩, hid⟩
  · constructor
    · rintro ⟨x, hx, hid⟩
      rcases List.mem_append.mp hx with hx | hx
      · exact .inr ⟨x, hx, hid⟩
      · have hxr : x = r := List.mem_singleton.mp hx
        exact .inl (hxr ▸ hid)
    · rintro (hri | ⟨x, hx, hid⟩)
      · exact ⟨r, List.mem_append.mpr (.inr (List.mem_singleton.mpr rfl)), hri⟩
      · exact ⟨x, List.mem_append.mpr (.inl hx), hid⟩

theorem mem_saveOneUser (db : DB) (u : UserIn) (i : String) :
    (∃ x ∈ (saveOneUser db u).users, x.id = i) ↔ (u.id = i ∨ ∃ x ∈ db.users, x.id = i) := by
  have hpweq : (saveOneUser db u).users = upsertUserRow db.users (savedUserRow db u) := rfl
  rw [hpweq, mem_upsertUserRow]
  rfl

theorem mem_saveUsersLoop (us : List UserIn) : ∀ (db : DB) (i : String),
    (∃ x ∈ (saveUsersLoop us db).users, x.id = i) ↔
      ((∃ u ∈ us, u.id = i) ∨ ∃ x ∈ db.users, x.id = i) := by
  induction us with
  | nil =>
    intro db i
    rw [saveUsersLoop]
    simp
  | cons u rest ih =>
    intro db i
    rw [saveUsersLoop, ih, mem_saveOneUser, List.exists_mem_cons_iff]
    constructor
    · rintro (h | h | h)
      · exact .inl (.inr h)
      · exact .inl (.inl h)
      · exact .inr h
    · rintro ((h | h) | h)
      · exact .inr (.inl h)
      · exact .inl h
      · exact .inr (.inr h)

theorem idsToDelete_contains (db : DB) (us : List UserIn) (actor : Principal) (i : String) :
    (((db.users.map (fun r => r.id)).filter
      (fun j => !((us.map (fun u => u.id)).contains j) && j != actor.id)).contains i = true) ↔
      ((∃ x ∈ db.users, x.id = i) ∧ ¬(∃ u ∈ us, u.id = i) ∧ i ≠ actor.id) := by
  simp [List.mem_filter, List.mem_map]

theorem mem_saveUsersStep (actor : Principal) (us : List UserIn) (db : DB) (i : String) :
    (∃ x ∈ (saveUsersStep actor us db).users, x.id = i) ↔
      ((∃ u ∈ us, u.id = i) ∨ (i = actor.id ∧ ∃ x ∈ db.users, x.id = i)) := by
  simp only [saveUsersStep]
  rw [mem_saveUsersLoop]
  dsimp only
  constructor
  · rintro (hP | ⟨x, hx, hid⟩)
    · exact .inl hP
    · rw [List.mem_filter] at hx
      obtain ⟨hxdb, hq⟩ := hx
      by_cases hP : ∃ u ∈ us, u.id = i
      · exact .inl hP
      · have hD : ∃ y ∈ db.users, y.id = i := ⟨x, hxdb, hid⟩
        by_cases hact : i = actor.id
        · exact .inr ⟨hact, hD⟩
        · exfalso
          rw [Bool.not_eq_true'] at hq
          rw [hid] at hq
          exact absurd ((idsToDelete_contains db us actor i).mpr ⟨hD, hP, hact⟩)
            (by rw [hq]; decide)
  · rintro (hP | ⟨hact, x, hx, hid⟩)
    · exact .inl hP
    · refine .inr ⟨x, ?_, hid⟩
      rw [List.mem_filter]
      refine ⟨hx, ?_⟩
      rw [Bool.not_eq_true']
      rw [hid]
      by_cases hc : ((db.users.map (fun r => r.id)).filter
          (fun j => !((us.map (fun u => u.id)).contains j) && j != actor.id)).contains i = true
      · obtain ⟨_, _, hne⟩ := (idsToDelete_contains db us actor i).mp hc
        exact absurd hact hne
      · exact Bool.not_eq_true _ ▸ (Bool.eq_false_iff.mpr hc)

theorem saveUsers_ok_some {actor : Principal} {doc : Doc} {db d1 : DB} {us : List UserIn}
    (hus : doc.users = some us) (h : saveUsers actor doc db = .ok d1) :
    d1 = saveUsersStep actor us db := by
  unfold saveUsers at h
  simp only [hus] at h
  split at h
  · cases h
  · exact (Except.ok.inj h).symm

/-- C4: on a successful save whose submission contains the users
collection, the resulting set of user ids is exactly the submitted ids
together with the acting principal's id when it was already stored —
every other existing user is deleted and every submitted user is
upserted; in particular, existing users A, B, C with a submission of A
and D by an Administrator yield exactly A updated and D created. -/
theorem claim_c4_users_diff_upsert :
    (∀ (actor : Principal) (doc : Doc) (db : DB) (us : List UserIn) (i : String),
      doc.users = some us → (saveAppData actor doc db).status = 200 →
      ((∃ x ∈ (saveAppData actor doc db).db.users, x.id = i) ↔
        ((∃ u ∈ us, u.id = i) ∨ (i = actor.id ∧ ∃ x ∈ db.users, x.id = i))))
    ∧ saveAppData adminFx docADFx dbABCFx =
        ⟨200, "Datos guardados exitosamente.",
          { dbABCFx with
            users := [⟨"A", "nnA", "Miembro", "Ar2", some "pw", "[]"⟩,
              ⟨"D", "nnD", "Miembro", "Ar2", none, "[]"⟩] }⟩ := by
  constructor
  · intro actor doc db us i hus hok
    have hbody := saveAppData_ok_body hok
    obtain ⟨d1, d2, d3, d4, d5, h1, h2, h3, h4, h5, h6⟩ := saveAppDataBody_ok_decomp hbody
    have hd1 := saveUsers_ok_some hus h1
    obtain ⟨i2, hd2, gl2, ob2, rk2, ap2, apu2, att2, au2, hs2⟩ := saveIndicators_ok_shape h2
    obtain ⟨g3, hs3⟩ := saveStrategicGoals_ok_shape h3
    obtain ⟨m4, dc4, hs4⟩ := saveMeetings_ok_shape h4
    obtain ⟨t5, r5, hs5⟩ := saveThreads_ok_shape h5
    obtain ⟨n6, hs6⟩ := saveNotifications_ok_shape h6
    have husers : (saveAppData actor doc db).db.users = d1.users := by
      simp [hs6, hs5, hs4, hs3, hs2]
    rw [husers, hd1]
    exact mem_saveUsersStep actor us db i
  · decide

/-- Witness for C4: in the A,B,C versus A,D example, id D is present
afterwards exactly as predicted by the membership characterization. -/
theorem claim_c4_witness :
    (∃ x ∈ (saveAppData adminFx docADFx dbABCFx).db.users, x.id = "D") ↔
      ((∃ u ∈ [userInFx "A", userInFx "D"], u.id = "D") ∨
        ("D" = adminFx.id ∧ ∃ x ∈ dbABCFx.users, x.id = "D")) :=
  claim_c4_users_diff_upsert.1 adminFx docADFx dbABCFx [userInFx "A", userInFx "D"] "D"
    rfl (by decide)

/-! ### Password preservation (claim C5) -/

theorem find?_map_upsertUser_self (tbl : List UserRow) (r : UserRow) :
    tbl.any (fun x => x.id == r.id) = true →
    (tbl.map (fun x => if x.id == r.id then r else x)).find? (fun x => x.id == r.id) = some r := by
  induction tbl with
  | nil => intro h; simp at h
  | cons x xs ih =>
    intro hany
    simp only [List.map_cons]
    by_cases hx : x.id == r.id
    · rw [if_pos hx]
      exact List.find?_cons_of_pos _ (by simp)
    · rw [if_neg hx, List.find?_cons_of_neg _ (by simpa using hx)]
      apply ih
      simpa [hx] using hany

theorem find?_upsertUser_self (tbl : List UserRow) (r : UserRow) :
    (upsertUserRow tbl r).find? (fun x => x.id == r.id) = some r := by
  unfold upsertUserRow
  split
  · exact find?_map_upsertUser_self tbl r (by assumption)
  · rename_i hany
    rw [List.find?_append]
    have h1 : tbl.find? (fun x => x.id == r.id) = none := by
      rw [List.find?_eq_none]
      intro x hx hpx
      exact hany (List.any_eq_true.mpr ⟨x, hx, hpx⟩)
    rw [h1]
    simp [List.find?]

theorem find?_map_upsertUser_ne (xs : List UserRow) (r : UserRow) (j : String)
    (hne : j ≠ r.id) :
    (xs.map (fun x => if x.id == r.id then r else x)).find? (fun x => x.id == j) =
      xs.find? (fun x => x.id == j) := by
  induction xs with
  | nil => rfl
  | cons x xs ih =>
    simp only [List.map_cons]
    by_cases hx : x.id == r.id
    · have hxr : x.id = r.id := eq_of_beq hx
      have hrj : (r.id == j) = false := beq_eq_false_iff_ne.mpr (fun e => hne e.symm)
      have hxj : (x.id == j) = false := by rw [hxr]; exact hrj
      rw [if_pos hx, List.find?_cons_of_neg _ (by simp [hrj]),
        List.find?_cons_of_neg _ (by simp [hxj])]
      exact ih
    · rw [if_neg hx]
      by_cases hxj : x.id == j
      · rw [List.find?_cons_of_pos _ (by simpa using hxj),
          List.find?_cons_of_pos _ (by simpa using hxj)]
      · rw [List.find?_cons_of_neg _ (by simpa using hxj),
          List.find?_cons_of_neg _ (by simpa using hxj)]
        exact ih

theorem find?_upsertUser_ne (tbl : List UserRow) (r : UserRow) (j : String)
    (hne : j ≠ r.id) :
    (upsertUserRow tbl r).find? (fun x => x.id == j) = tbl.find? (fun x => x.id == j) := by
  unfold upsertUserRow
  split
  · exact find?_map_upsertUser_ne tbl r j hne
  · rw [List.find?_append]
    have hnone : List.find? (fun x => x.id == j) [r] = none := by
      simp [beq_eq_false_iff_ne.mpr (fun e => hne e.symm)]
    rw [hnone, Option.or_none]

theorem saveOneUser_find_self (db : DB) (u : UserIn) :
    ∃ row, (saveOneUser db u).users.find? (fun x => x.id == u.id) = some row ∧
      row.password = (match u.password with
        | some p => if p != "" && !(jsStartsWith p "$2a$") then some (bcryptHash p)
                    else (db.users.find? (fun x => x.id == u.id)).bind (fun r => r.password)
        | none => (db.users.find? (fun x => x.id == u.id)).bind (fun r => r.password)) := by
  refine ⟨savedUserRow db u, find?_upsertUser_self db.users (savedUserRow db u), ?_⟩
  cases hup : u.password with
  | none =>
    cases hf : db.users.find? (fun x => x.id == u.id) <;>
      simp only [savedUserRow, hup, hf] <;> rfl
  | some p =>
    by_cases hcond : (p != "" && !(jsStartsWith p "$2a$")) = true
    · simp only [savedUserRow, hup, hcond, if_true]
    · cases hf : db.users.find? (fun x => x.id == u.id) <;>
        simp only [savedUserRow, hup, hcond, if_false, hf] <;> rfl

theorem saveOneUser_find_ne (db : DB) (u : UserIn) (j : String) (hne : j ≠ u.id) :
    (saveOneUser db u).users.find? (fun x => x.id == j) =
      db.users.find? (fun x => x.id == j) :=
  find?_upsertUser_ne db.users (savedUserRow db u) j hne

theorem saveUsersLoop_find_preserved (us : List UserIn) : ∀ (db : DB) (j : String),
    (∀ v ∈ us, v.id ≠ j) →
    (saveUsersLoop us db).users.find? (fun x => x.id == j) =
      db.users.find? (fun x => x.id == j) := by
  induction us with
  | nil =>
    intro db j _
    rw [saveUsersLoop]
  | cons v rest ih =>
    intro db j hall
    rw [saveUsersLoop]
    rw [ih _ j (fun w hw => hall w (List.mem_cons_of_mem v hw))]
    exact saveOneUser_find_ne db v j (fun e => hall v (List.mem_cons_self v rest) e.symm)

theorem saveUsersLoop_find (us : List UserIn) : ∀ (db : DB) (u : UserIn),
    u ∈ us → (us.map (fun x => x.id)).Nodup →
    ∃ row, (saveUsersLoop us db).users.find? (fun x => x.id == u.id) = some row ∧
      row.password = (match u.password with
        | some p => if p != "" && !(jsStartsWith p "$2a$") then some (bcryptHash p)
                    else (db.users.find? (fun x => x.id == u.id)).bind (fun r => r.password)
        | none => (db.users.find? (fun x => x.id == u.id)).bind (fun r => r.password)) := by
  induction us with
  | nil =>
    intro db u h _
    cases h
  | cons v rest ih =>
    intro db u hmem hnodup
    rw [saveUsersLoop]
    have hnd : (∀ x ∈ rest, ¬ x.id = v.id) ∧ (rest.map (fun x => x.id)).Nodup := by
      simpa using hnodup
    rcases List.mem_cons.mp hmem with rfl | hmem'
    · obtain ⟨row, hfind, hpw⟩ := saveOneUser_find_self db u
      have hrest : ∀ w ∈ rest, w.id ≠ u.id := fun w hw e => hnd.1 w hw e
      rw [saveUsersLoop_find_preserved rest (saveOneUser db u) u.id hrest]
      exact ⟨row, hfind, hpw⟩
    · have hvne : v.id ≠ u.id := fun e => hnd.1 u hmem' e.symm
      have hpres := saveOneUser_find_ne db v u.id (fun e => hvne e.symm)
      obtain ⟨row, hfind, hpw⟩ := ih (saveOneUser db v) u hmem' hnd.2
      refine ⟨row, hfind, ?_⟩
      rw [hpw, hpres]

theorem find?_filter_keep (l : List UserRow) (p q : UserRow → Bool)
    (h : ∀ x, p x = true → q x = true) : (l.filter q).find? p = l.find? p := by
  induction l with
  | nil => rfl
  | cons x xs ih =>
    by_cases hp : p x
    · rw [List.filter_cons_of_pos (h x hp), List.find?_cons_of_pos _ hp,
        List.find?_cons_of_pos _ hp]
    · by_cases hq : q x
      · rw [List.filter_cons_of_pos hq, List.find?_cons_of_neg _ hp,
          List.find?_cons_of_neg _ hp]
        exact ih
      · rw [List.filter_cons_of_neg (by simpa using hq), List.find?_cons_of_neg _ hp]
        exact ih

theorem saveUsersStep_find (actor : Principal) (us : List UserIn) (db : DB) (u : UserIn)
    (hmem : u ∈ us) (hnodup : (us.map (fun x => x.id)).Nodup) :
    ∃ row, (saveUsersStep actor us db).users.find? (fun x => x.id == u.id) = some row ∧
      row.password = (match u.password with
        | some p => if p != "" && !(jsStartsWith p "$2a$") then some (bcryptHash p)
                    else (db.users.find? (fun x => x.id == u.id)).bind (fun r => r.password)
        | none => (db.users.find? (fun x => x.id == u.id)).bind (fun r => r.password)) := by
  simp only [saveUsersStep]
  obtain ⟨row, hfind, hpw⟩ := saveUsersLoop_find us _ u hmem hnodup
  refine ⟨row, hfind, ?_⟩
  rw [hpw]
  have hkeep : (db.users.filter
      (fun r => !(((db.users.map (fun r => r.id)).filter
        (fun i => !((us.map (fun u => u.id)).contains i) && i != actor.id)).contains r.id))).find?
      (fun x => x.id == u.id) = db.users.find? (fun x => x.id == u.id) := by
    apply find?_filter_keep
    intro x hx
    have hxid : x.id = u.id := eq_of_beq hx
    rw [hxid, Bool.not_eq_true']
    by_cases hc : ((db.users.map (fun r => r.id)).filter
        (fun i => !((us.map (fun u => u.id)).contains i) && i != actor.id)).contains u.id = true
    · obtain ⟨_, hno, _⟩ := (idsToDelete_contains db us actor u.id).mp hc
      exact absurd ⟨u, hmem, rfl⟩ hno
    · exact Bool.eq_false_iff.mpr hc
  dsimp only
  rw [hkeep]

/-- C5 counterexample: the claim says a submitted password that is present
and not a recognized hash is hashed and stored; submitting the empty
string — present but falsy in the controller's truthiness check — keeps
the previously stored value instead, and no hash of the empty string is
stored. -/
theorem claim_c5_counterexample :
    (saveAppData adminFx docEmptyPwFx dbOldPwFx).status = 200
    ∧ ((saveAppData adminFx docEmptyPwFx dbOldPwFx).db.users.find?
        (fun x => x.id == "u1")).map (fun r => r.password) = some (some "old")
    ∧ ¬ ((saveAppData adminFx docEmptyPwFx dbOldPwFx).db.users.find?
        (fun x => x.id == "u1")).map (fun r => r.password) = some (some (bcryptHash "")) := by
  decide

/-- C5 as amended: for every submitted user (with distinct submitted ids)
in a committed save, the stored password afterwards is a fresh hash of
the submitted password when that password is present, non-empty and does
not already carry the bcrypt prefix; in every other case — absent, empty,
or already a hash — the previously stored value is kept (null for a new
row), so omitting a password never clears it and re-submitting a hash
never double-hashes. -/
theorem claim_c5_amended (actor : Principal) (doc : Doc) (db : DB) (us : List UserIn)
    (u : UserIn) (hus : doc.users = some us) (hnodup : (us.map (fun x => x.id)).Nodup)
    (hmem : u ∈ us) (hok : (saveAppData actor doc db).status = 200) :
    ∃ row, (saveAppData actor doc db).db.users.find? (fun x => x.id == u.id) = some row ∧
      row.password = (match u.password with
        | some p => if p != "" && !(jsStartsWith p "$2a$") then some (bcryptHash p)
                    else (db.users.find? (fun x => x.id == u.id)).bind (fun r => r.password)
        | none => (db.users.find? (fun x => x.id == u.id)).bind (fun r => r.password)) := by
  have hbody := saveAppData_ok_body hok
  obtain ⟨d1, d2, d3, d4, d5, h1, h2, h3, h4, h5, h6⟩ := saveAppDataBody_ok_decomp hbody
  have hd1 := saveUsers_ok_some hus h1
  obtain ⟨i2, hd2, gl2, ob2, rk2, ap2, apu2, att2, au2, hs2⟩ := saveIndicators_ok_shape h2
  obtain ⟨g3, hs3⟩ := saveStrategicGoals_ok_shape h3
  obtain ⟨m4, dc4, hs4⟩ := saveMeetings_ok_shape h4
  obtain ⟨t5, r5, hs5⟩ := saveThreads_ok_shape h5
  obtain ⟨n6, hs6⟩ := saveNotifications_ok_shape h6
  have husers : (saveAppData actor doc db).db.users = d1.users := by
    simp [hs6, hs5, hs4, hs3, hs2]
  rw [husers, hd1]
  exact saveUsersStep_find actor us db u hmem hnodup

/-- Witness for C5 as amended: submitting the empty-string password keeps
the stored value. -/
theorem claim_c5_witness :
    ∃ row, (saveAppData adminFx docEmptyPwFx dbOldPwFx).db.users.find?
        (fun x => x.id == "u1") = some row ∧
      row.password = (dbOldPwFx.users.find? (fun x => x.id == "u1")).bind (fun r => r.password) :=
  claim_c5_amended adminFx docEmptyPwFx dbOldPwFx
    [⟨"u1", "alice", "Miembro", "Ar", some "", none⟩]
    ⟨"u1", "alice", "Miembro", "Ar", some "", none⟩
    rfl (by decide) (by decide) (by decide)

/-! ### Attachment handling (claim C1) -/

theorem syncSubCollection_filter_self (tbl : List ChildRow) (pid : String)
    (coll : Option (List Item)) (cols : List String) :
    (syncSubCollection tbl pid coll cols).filter (fun r => r.parent_id == pid) =
      (coll.getD []).map (fun it => (⟨pid, cols.map (colVal it)⟩ : ChildRow)) := by
  have hkept : (tbl.filter (fun r => !(r.parent_id == pid))).filter
      (fun r => r.parent_id == pid) = [] := by
    rw [List.filter_filter, List.filter_eq_nil_iff]
    intro a _
    simp
  unfold syncSubCollection
  cases coll with
  | none =>
    simp only [hkept]
    rfl
  | some items =>
    by_cases hl : items.length > 0
    · simp only [if_pos hl]
      rw [List.filter_append, hkept, List.nil_append]
      rw [List.filter_eq_self.mpr]
      · rfl
      · intro a ha
        obtain ⟨it, _, rfl⟩ := List.mem_map.mp ha
        simp
    · simp only [if_neg hl]
      have hempty : items = [] := by
        cases items with
        | nil => rfl
        | cons x xs => exact absurd (Nat.succ_pos xs.length) hl
      subst hempty
      simp only [hkept]
      rfl

theorem filter_filter_keep (l : List ChildRow) (p q : ChildRow → Bool)
    (h : ∀ x, p x = true → q x = true) : (l.filter q).filter p = l.filter p := by
  rw [List.filter_filter]
  induction l with
  | nil => rfl
  | cons x xs ih =>
    by_cases hp : p x
    · simp only [List.filter_cons, hp, h x hp, Bool.and_self, if_pos]
      rw [ih]
    · simp only [List.filter_cons, hp, Bool.false_and, if_neg, Bool.false_eq_true,
        not_false_eq_true, ih]

theorem syncSubCollection_filter_ne (tbl : List ChildRow) (pid : String)
    (coll : Option (List Item)) (cols : List String) (j : String) (hne : j ≠ pid) :
    (syncSubCollection tbl pid coll cols).filter (fun r => r.parent_id == j) =
      tbl.filter (fun r => r.parent_id == j) := by
  have hkeep : (tbl.filter (fun r => !(r.parent_id == pid))).filter
      (fun r => r.parent_id == j) = tbl.filter (fun r => r.parent_id == j) := by
    apply filter_filter_keep
    intro x hx
    have hxj : x.parent_id = j := eq_of_beq hx
    simp [hxj, beq_eq_false_iff_ne.mpr hne]
  unfold syncSubCollection
  cases coll with
  | none => simpa using hkeep
  | some items =>
    by_cases hl : items.length > 0
    · simp only [if_pos hl]
      rw [List.filter_append, hkeep]
      have hins : (items.map (fun it => (⟨pid, cols.map (colVal it)⟩ : ChildRow))).filter
          (fun r => r.parent_id == j) = [] := by
        rw [List.filter_eq_nil_iff]
        intro a ha
        obtain ⟨it, _, rfl⟩ := List.mem_map.mp ha
        simp
        exact fun e => hne e.symm
      rw [hins, List.append_nil]
    · simp only [if_neg hl]
      simpa using hkeep

theorem savePlans_attachments (indId : String) (ap : Option (List PlanIn)) (db : DB) :
    (savePlans indId ap db).attachments = db.attachments := by
  obtain ⟨a, b, h⟩ := savePlans_shape indId ap db
  rw [h]

theorem writeIndicator_attachments (ind : IndicatorIn) (db : DB) :
    (writeIndicator ind db).attachments =
      syncSubCollection db.attachments ind.id ind.attachments
        ["id", "fileName", "fileType", "fileSize", "dataUrl", "uploadedBy", "uploadDate"] := by
  simp only [writeIndicator, savePlans_attachments]

theorem writeIndicator_att_self (ind : IndicatorIn) (db : DB) :
    (writeIndicator ind db).attachments.filter (fun r => r.parent_id == ind.id) =
      (ind.attachments.getD []).map (fun it =>
        (⟨ind.id, ["id", "fileName", "fileType", "fileSize", "dataUrl", "uploadedBy",
          "uploadDate"].map (colVal it)⟩ : ChildRow)) := by
  rw [writeIndicator_attachments, syncSubCollection_filter_self]

theorem writeIndicator_att_ne (ind : IndicatorIn) (db : DB) (j : String) (hne : j ≠ ind.id) :
    (writeIndicator ind db).attachments.filter (fun r => r.parent_id == j) =
      db.attachments.filter (fun r => r.parent_id == j) := by
  rw [writeIndicator_attachments, syncSubCollection_filter_ne _ _ _ _ j hne]

theorem saveIndicatorsLoop_att_preserved (actor : Principal) (inds : List IndicatorIn) :
    ∀ {db db' : DB} (j : String), (∀ i ∈ inds, i.id ≠ j) →
    saveIndicatorsLoop actor inds db = .ok db' →
    db'.attachments.filter (fun r => r.parent_id == j) =
      db.attachments.filter (fun r => r.parent_id == j) := by
  induction inds with
  | nil =>
    intro db db' j _ h
    simp only [saveIndicatorsLoop, Except.ok.injEq] at h
    rw [← h]
  | cons i0 rest ih =>
    intro db db' j hall h
    rw [saveIndicatorsLoop] at h
    cases hs : saveOneIndicator actor db i0 with
    | error e => rw [hs] at h; cases h
    | ok db1 =>
      rw [hs] at h
      have hdb1 := saveOneIndicator_ok hs
      subst hdb1
      rw [ih j (fun i hi => hall i (List.mem_cons_of_mem i0 hi)) h]
      exact writeIndicator_att_ne i0 db j
        (fun e => hall i0 (List.mem_cons_self i0 rest) e.symm)

theorem saveIndicatorsLoop_att (actor : Principal) (inds : List IndicatorIn) :
    ∀ {db db' : DB} (ind : IndicatorIn), ind ∈ inds →
    (inds.map (fun x => x.id)).Nodup →
    saveIndicatorsLoop actor inds db = .ok db' →
    db'.attachments.filter (fun r => r.parent_id == ind.id) =
      (ind.attachments.getD []).map (fun it =>
        (⟨ind.id, ["id", "fileName", "fileType", "fileSize", "dataUrl", "uploadedBy",
          "uploadDate"].map (colVal it)⟩ : ChildRow)) := by
  induction inds with
  | nil =>
    intro db db' ind hmem _ _
    cases hmem
  | cons i0 rest ih =>
    intro db db' ind hmem hnodup h
    rw [saveIndicatorsLoop] at h
    cases hs : saveOneIndicator actor db i0 with
    | error e => rw [hs] at h; cases h
    | ok db1 =>
      rw [hs] at h
      have hdb1 := saveOneIndicator_ok hs
      subst hdb1
      have hnd : (∀ x ∈ rest, ¬ x.id = i0.id) ∧ (rest.map (fun x => x.id)).Nodup := by
        simpa using hnodup
      rcases List.mem_cons.mp hmem with rfl | hmem'
      · rw [saveIndicatorsLoop_att_preserved actor rest ind.id
          (fun i hi e => hnd.1 i hi e) h]
        exact writeIndicator_att_self ind db
      · exact ih ind hmem' hnd.2 h

theorem saveIndicators_ok_some {actor : Principal} {doc : Doc} {db d2 : DB}
    {inds : List IndicatorIn} (hinds : doc.indicators = some inds)
    (h : saveIndicators actor doc db = .ok d2) :
    saveIndicatorsLoop actor inds db = .ok d2 := by
  unfold saveIndicators at h
  simp only [hinds] at h
  exact h

theorem mem_upd_savePlanOne (indId : String) (db : DB) (p : PlanIn) (r : UpdateRow)
    (h : r ∈ db.action_plan_updates) : r ∈ (savePlanOne indId db p).action_plan_updates := by
  simp only [savePlanOne]
  cases p.updates with
  | none => exact h
  | some us =>
    by_cases hl : us.length > 0
    · simp only [if_pos hl]
      exact List.mem_append_left _ h
    · simp only [if_neg hl]
      exact h

theorem mem_upd_ins_savePlanOne (indId : String) (db : DB) (p : PlanIn) (u : UpdateIn)
    (hu : u ∈ p.updates.getD []) :
    (⟨u.id, p.id, u.date, u.author, u.text, jsOr u.statusChange,
      jsonOpt u.attachment⟩ : UpdateRow) ∈ (savePlanOne indId db p).action_plan_updates := by
  simp only [savePlanOne]
  cases hpu : p.updates with
  | none =>
    rw [hpu, Option.getD_none] at hu
    exact absurd hu (List.not_mem_nil u)
  | some us =>
    rw [hpu, Option.getD_some] at hu
    have hl : us.length > 0 := List.length_pos.mpr (List.ne_nil_of_mem hu)
    simp only [if_pos hl]
    exact List.mem_append_right _ (List.mem_map.mpr ⟨u, hu, rfl⟩)

theorem mem_upd_plansFold (indId : String) (plans : List PlanIn) :
    ∀ (db : DB) (r : UpdateRow), r ∈ db.action_plan_updates →
    r ∈ (plans.foldl (savePlanOne indId) db).action_plan_updates := by
  induction plans with
  | nil => intro db r h; exact h
  | cons p rest ih =>
    intro db r h
    exact ih _ r (mem_upd_savePlanOne indId db p r h)

theorem mem_upd_ins_plansFold (indId : String) (plans : List PlanIn) :
    ∀ (db : DB) (p : PlanIn) (u : UpdateIn), p ∈ plans → u ∈ p.updates.getD [] →
    (⟨u.id, p.id, u.date, u.author, u.text, jsOr u.statusChange,
      jsonOpt u.attachment⟩ : UpdateRow)
      ∈ (plans.foldl (savePlanOne indId) db).action_plan_updates := by
  induction plans with
  | nil => intro db p u hp _; exact absurd hp (List.not_mem_nil p)
  | cons q rest ih =>
    intro db p u hp hu
    rcases List.mem_cons.mp hp with he | hmem
    · subst he
      exact mem_upd_plansFold indId rest _ _ (mem_upd_ins_savePlanOne indId db p u hu)
    · exact ih _ p u hmem hu

theorem mem_upd_ins_savePlans (indId : String) (ap : Option (List PlanIn)) (db : DB)
    (p : PlanIn) (u : UpdateIn) (hp : p ∈ ap.getD []) (hu : u ∈ p.updates.getD []) :
    (⟨u.id, p.id, u.date, u.author, u.text, jsOr u.statusChange,
      jsonOpt u.attachment⟩ : UpdateRow) ∈ (savePlans indId ap db).action_plan_updates := by
  simp only [savePlans]
  cases hap : ap with
  | none =>
    rw [hap, Option.getD_none] at hp
    exact absurd hp (List.not_mem_nil p)
  | some plans =>
    rw [hap, Option.getD_some] at hp
    have hl : plans.length > 0 := List.length_pos.mpr (List.ne_nil_of_mem hp)
    simp only [if_pos hl]
    exact mem_upd_ins_plansFold indId plans _ p u hp hu

theorem mem_upd_savePlans (indId : String) (ap : Option (List PlanIn)) (db : DB)
    (r : UpdateRow) (h : r ∈ db.action_plan_updates)
    (hnd : ∀ q ∈ db.action_plans, q.indicator_id = indId → q.id ≠ r.action_plan_id) :
    r ∈ (savePlans indId ap db).action_plan_updates := by
  have hkeep : (!(((db.action_plans.filter (fun p => p.indicator_id == indId)).map
      (fun p => p.id)).contains r.action_plan_id)) = true := by
    simp only [List.contains, List.elem_eq_mem, Bool.not_eq_true', decide_eq_false_iff_not,
      List.mem_map, List.mem_filter, beq_iff_eq]
    rintro ⟨q, ⟨hq, hqi⟩, hqe⟩
    exact hnd q hq hqi hqe
  have hmemf : r ∈ db.action_plan_updates.filter (fun u2 =>
      !(((db.action_plans.filter (fun p => p.indicator_id == indId)).map
        (fun p => p.id)).contains u2.action_plan_id)) :=
    List.mem_filter.mpr ⟨h, hkeep⟩
  simp only [savePlans]
  cases ap with
  | none => exact hmemf
  | some plans =>
    by_cases hl : plans.length > 0
    · simp only [if_pos hl]
      exact mem_upd_plansFold indId plans _ r hmemf
    · simp only [if_neg hl]
      exact hmemf

theorem savePlanOne_plans (indId : String) (db : DB) (p : PlanIn) :
    (savePlanOne indId db p).action_plans = db.action_plans ++
      [(⟨p.id, indId, p.title, p.description, p.owner, p.status, p.dueDate,
        p.createdDate⟩ : PlanRow)] := by
  simp only [savePlanOne]
  cases p.updates with
  | none => rfl
  | some us =>
    by_cases hl : us.length > 0
    · simp only [if_pos hl]
    · simp only [if_neg hl]

theorem mem_plans_plansFold (indId : String) (plans : List PlanIn) :
    ∀ (db : DB) (q : PlanRow), q ∈ (plans.foldl (savePlanOne indId) db).action_plans →
    q ∈ db.action_plans ∨ q.indicator_id = indId := by
  induction plans with
  | nil => intro db q h; exact .inl h
  | cons p rest ih =>
    intro db q h
    rcases ih _ q h with h2 | h2
    · rw [savePlanOne_plans] at h2
      rcases List.mem_append.mp h2 with h3 | h3
      · exact .inl h3
      · rw [List.mem_singleton] at h3
        subst h3
        exact .inr rfl
    · exact .inr h2

theorem mem_plans_savePlans (indId : String) (ap : Option (List PlanIn)) (db : DB)
    (q : PlanRow) (h : q ∈ (savePlans indId ap db).action_plans) :
    q ∈ db.action_plans ∨ q.indicator_id = indId := by
  simp only [savePlans] at h
  cases ap with
  | none => exact .inl (List.mem_filter.mp h).1
  | some plans =>
    by_cases hl : plans.length > 0
    · simp only [if_pos hl] at h
      rcases mem_plans_plansFold indId plans _ q h with h2 | h2
      · exact .inl (List.mem_filter.mp h2).1
      · exact .inr h2
    · simp only [if_neg hl] at h
      exact .inl (List.mem_filter.mp h).1

theorem writeIndicator_upd_ins (ind : IndicatorIn) (db : DB) (p : PlanIn) (u : UpdateIn)
    (hp : p ∈ ind.actionPlans.getD []) (hu : u ∈ p.updates.getD []) :
    (⟨u.id, p.id, u.date, u.author, u.text, jsOr u.statusChange,
      jsonOpt u.attachment⟩ : UpdateRow) ∈ (writeIndicator ind db).action_plan_updates := by
  simp only [writeIndicator]
  exact mem_upd_ins_savePlans ind.id ind.actionPlans _ p u hp hu

theorem writeIndicator_upd_pres (ind : IndicatorIn) (db : DB) (r : UpdateRow)
    (h : r ∈ db.action_plan_updates)
    (hnd : ∀ q ∈ db.action_plans, q.indicator_id = ind.id → q.id ≠ r.action_plan_id) :
    r ∈ (writeIndicator ind db).action_plan_updates := by
  simp only [writeIndicator]
  exact mem_upd_savePlans ind.id ind.actionPlans _ r h hnd

theorem writeIndicator_plans_mem (ind : IndicatorIn) (db : DB) (q : PlanRow)
    (h : q ∈ (writeIndicator ind db).action_plans) :
    q ∈ db.action_plans ∨ q.indicator_id = ind.id := by
  simp only [writeIndicator] at h
  rcases mem_plans_savePlans ind.id ind.actionPlans _ q h with h2 | h2
  · exact .inl h2
  · exact .inr h2

theorem saveIndicatorsLoop_upd_preserved (actor : Principal) (inds : List IndicatorIn) :
    ∀ {db db' : DB} (r : UpdateRow),
    (inds.map (fun x => x.id)).Nodup →
    saveIndicatorsLoop actor inds db = .ok db' →
    r ∈ db.action_plan_updates →
    (∀ q ∈ db.action_plans, q.id = r.action_plan_id → ∀ j ∈ inds, j.id ≠ q.indicator_id) →
    r ∈ db'.action_plan_updates := by
  induction inds with
  | nil =>
    intro db db' r _ h hr _
    simp only [saveIndicatorsLoop, Except.ok.injEq] at h
    rw [← h]
    exact hr
  | cons i0 rest ih =>
    intro db db' r hnodup h hr hsafe
    rw [saveIndicatorsLoop] at h
    cases hs : saveOneIndicator actor db i0 with
    | error e => rw [hs] at h; cases h
    | ok db1 =>
      rw [hs] at h
      have hdb1 := saveOneIndicator_ok hs
      subst hdb1
      have hnd : (∀ x ∈ rest, ¬ x.id = i0.id) ∧ (rest.map (fun x => x.id)).Nodup := by
        simpa using hnodup
      have hr1 : r ∈ (writeIndicator i0 db).action_plan_updates :=
        writeIndicator_upd_pres i0 db r hr (fun q hq hqi hqe =>
          (hsafe q hq hqe i0 (List.mem_cons_self i0 rest)) hqi.symm)
      refine ih r hnd.2 h hr1 ?_
      intro q hq hqe j hj
      rcases writeIndicator_plans_mem i0 db q hq with hold | hnew
      · exact hsafe q hold hqe j (List.mem_cons_of_mem i0 hj)
      · rw [hnew]
        exact fun e => hnd.1 j hj e

theorem saveIndicatorsLoop_upd (actor : Principal) (inds : List IndicatorIn) :
    ∀ {db db' : DB} (ind : IndicatorIn) (p : PlanIn) (u : UpdateIn), ind ∈ inds →
    (inds.map (fun x => x.id)).Nodup →
    p ∈ ind.actionPlans.getD [] → u ∈ p.updates.getD [] →
    (∀ q ∈ db.action_plans, q.id = p.id → ∀ j ∈ inds, j.id = q.indicator_id → j.id = ind.id) →
    saveIndicatorsLoop actor inds db = .ok db' →
    (⟨u.id, p.id, u.date, u.author, u.text, jsOr u.statusChange,
      jsonOpt u.attachment⟩ : UpdateRow) ∈ db'.action_plan_updates := by
  induction inds with
  | nil => intro db db' ind p u hmem _ _ _ _ _; exact absurd hmem (List.not_mem_nil ind)
  | cons i0 rest ih =>
    intro db db' ind p u hmem hnodup hp hu hfresh h
    rw [saveIndicatorsLoop] at h
    cases hs : saveOneIndicator actor db i0 with
    | error e => rw [hs] at h; cases h
    | ok db1 =>
      rw [hs] at h
      have hdb1 := saveOneIndicator_ok hs
      subst hdb1
      have hnd : (∀ x ∈ rest, ¬ x.id = i0.id) ∧ (rest.map (fun x => x.id)).Nodup := by
        simpa using hnodup
      rcases List.mem_cons.mp hmem with he | hmem'
      · subst he
        have hins := writeIndicator_upd_ins ind db p u hp hu
        refine saveIndicatorsLoop_upd_preserved actor rest _ hnd.2 h hins ?_
        intro q hq hqe j hj
        rcases writeIndicator_plans_mem ind db q hq with hold | hnew
        · intro he2
          exact hnd.1 j hj (hfresh q hold hqe j (List.mem_cons_of_mem ind hj) he2)
        · rw [hnew]
          exact fun e => hnd.1 j hj e
      · refine ih ind p u hmem' hnd.2 hp hu ?_ h
        intro q hq hqe j hj hje
        rcases writeIndicator_plans_mem i0 db q hq with hold | hnew
        · exact hfresh q hold hqe j (List.mem_cons_of_mem i0 hj) hje
        · rw [hnew] at hje
          exact absurd hje (hnd.1 j hj)

/-- C1 counterexample: with a direct attachment id 1 / fileName X and an
action-plan update carrying attachment id 1 / fileName Y, the committed
save persists exactly one attachment row — the direct one with payload X —
and no persisted attachment row carries the update's payload Y, contrary
to the claimed later-wins merge; instead the update's payload is
JSON-serialized into the update's own action_plan_updates row, leaving two
persisted copies of id 1, one per source. -/
theorem claim_c1_counterexample :
    (saveAppData adminFx docC1Fx emptyDB).status = 200
    ∧ (saveAppData adminFx docC1Fx emptyDB).db.attachments =
        [⟨"I1", [some "1", some "X", none, none, none, none, none]⟩]
    ∧ ¬ (∃ row ∈ (saveAppData adminFx docC1Fx emptyDB).db.attachments,
        (some "Y") ∈ row.vals)
    ∧ (saveAppData adminFx docC1Fx emptyDB).db.action_plan_updates =
        [⟨updFx.id, planFx.id, updFx.date, updFx.author, updFx.text,
          jsOr updFx.statusChange, jsonOpt updFx.attachment⟩] := by
  decide

/-- C1 as amended: for every committed save, the attachment rows persisted
within an indicator's scope are exactly those of the indicator's direct
attachment list (empty when the list is absent or empty), with no
cross-source deduplication or later-wins overwrite; and each attachment
carried on an action-plan update is JSON-serialized into that update's own
action_plan_updates row — provided a stored action-plan row reusing the
submitted plan's id belongs to this indicator, the spec's id-uniqueness
invariant. -/
theorem claim_c1_amended (actor : Principal) (doc : Doc) (db : DB) (inds : List IndicatorIn)
    (ind : IndicatorIn) (hinds : doc.indicators = some inds)
    (hnodup : (inds.map (fun x => x.id)).Nodup) (hmem : ind ∈ inds)
    (hok : (saveAppData actor doc db).status = 200) :
    ((saveAppData actor doc db).db.attachments.filter (fun r => r.parent_id == ind.id) =
      (ind.attachments.getD []).map (fun it =>
        (⟨ind.id, ["id", "fileName", "fileType", "fileSize", "dataUrl", "uploadedBy",
          "uploadDate"].map (colVal it)⟩ : ChildRow)))
    ∧ (∀ p ∈ ind.actionPlans.getD [], ∀ u ∈ p.updates.getD [],
        (∀ q ∈ db.action_plans, q.id = p.id → q.indicator_id = ind.id) →
        (⟨u.id, p.id, u.date, u.author, u.text, jsOr u.statusChange,
          jsonOpt u.attachment⟩ : UpdateRow)
          ∈ (saveAppData actor doc db).db.action_plan_updates) := by
  have hbody := saveAppData_ok_body hok
  obtain ⟨d1, d2, d3, d4, d5, h1, h2, h3, h4, h5, h6⟩ := saveAppDataBody_ok_decomp hbody
  obtain ⟨g3, hs3⟩ := saveStrategicGoals_ok_shape h3
  obtain ⟨m4, dc4, hs4⟩ := saveMeetings_ok_shape h4
  obtain ⟨t5, r5, hs5⟩ := saveThreads_ok_shape h5
  obtain ⟨n6, hs6⟩ := saveNotifications_ok_shape h6
  constructor
  · have hatt : (saveAppData actor doc db).db.attachments = d2.attachments := by
      simp [hs6, hs5, hs4, hs3]
    rw [hatt]
    exact saveIndicatorsLoop_att actor inds ind hmem hnodup (saveIndicators_ok_some hinds h2)
  · intro p hp u hu hfresh
    have hupd : (saveAppData actor doc db).db.action_plan_updates =
        d2.action_plan_updates := by
      simp [hs6, hs5, hs4, hs3]
    rw [hupd]
    obtain ⟨us1, hs1⟩ := saveUsers_ok_shape h1
    refine saveIndicatorsLoop_upd actor inds ind p u hmem hnodup hp hu ?_
      (saveIndicators_ok_some hinds h2)
    intro q hq hqe j hj hje
    rw [hs1] at hq
    rw [hje, hfresh q hq hqe]

/-- Witness for C1 as amended, at the counterexample's input: the
persisted attachment rows for indicator I1 are exactly the direct list,
and the submitted update's attachment is JSON-serialized into the
update's own action_plan_updates row. -/
theorem claim_c1_witness :
    ((saveAppData adminFx docC1Fx emptyDB).db.attachments.filter
        (fun r => r.parent_id == indC1Fx.id) =
      (indC1Fx.attachments.getD []).map (fun it =>
        (⟨indC1Fx.id, ["id", "fileName", "fileType", "fileSize", "dataUrl", "uploadedBy",
          "uploadDate"].map (colVal it)⟩ : ChildRow)))
    ∧ (⟨updFx.id, planFx.id, updFx.date, updFx.author, updFx.text,
        jsOr updFx.statusChange, jsonOpt updFx.attachment⟩ : UpdateRow)
        ∈ (saveAppData adminFx docC1Fx emptyDB).db.action_plan_updates := by
  have h := claim_c1_amended adminFx docC1Fx emptyDB [indC1Fx] indC1Fx rfl (by decide)
    (by decide) (by decide)
  exact ⟨h.1, h.2 planFx (by decide) updFx (by decide) (by decide)⟩

/-! ### C6: login migration-on-read -/

theorem bcryptHash_data (p : String) :
    (bcryptHash p).data = '$' :: '2' :: 'a' :: '$' :: '1' :: '0' :: '$' :: p.data := rfl

theorem bcryptHash_hasPre (p : String) : jsStartsWith (bcryptHash p) "$2a$" = true := rfl

theorem bcryptHash_ne_empty (p : String) : (bcryptHash p != "") = true := by
  rw [bne_iff_ne]
  intro h
  have h2 : (bcryptHash p).data = [] := congrArg String.data h
  rw [bcryptHash_data] at h2
  exact List.noConfusion h2

theorem find?_map_pwRehash (xs : List UserRow) (i : String) (hp : Option String) (n : String) :
    (xs.map (fun x => if x.id == i then { x with password := hp } else x)).find?
      (fun u => u.name == n) =
    (xs.find? (fun u => u.name == n)).map
      (fun x => if x.id == i then { x with password := hp } else x) := by
  induction xs with
  | nil => rfl
  | cons x xs ih =>
    have hname : ((if x.id == i then { x with password := hp } else x) : UserRow).name
        = x.name := by
      by_cases hid : (x.id == i) = true
      · rw [if_pos hid]
      · rw [if_neg hid]
    simp only [List.map_cons, List.find?, hname]
    cases hx : (x.name == n) with
    | true => rfl
    | false => exact ih

/-- C6: migration-on-read at login. If the matched user's stored password is
a legacy plain-text value equal to the submitted password, exactly one write
replaces it with the salted hash before the success response is returned, and
any subsequent login for that user finds the hash stored, so it compares with
bcrypt and performs zero writes; if the stored value already carries the
bcrypt marker, login compares with bcrypt, succeeds exactly on a bcrypt
match, and never rewrites the password. -/
theorem claim_c6_login_migration :
    (∀ (db : DB) (n p : String) (r : UserRow),
      n ≠ "" → p ≠ "" →
      db.users.find? (fun u => u.name == n) = some r →
      r.password = some p →
      jsStartsWith p "$2a$" = false →
      (login db n p).1 = .success ⟨r.id, r.name, r.role, r.area⟩ (userView r)
      ∧ (login db n p).2.1 =
        { db with
          users := db.users.map (fun x =>
            if x.id == r.id then { x with password := some (bcryptHash p) } else x) }
      ∧ (login db n p).2.2 = 1
      ∧ ∀ p2 : String, (login (login db n p).2.1 n p2).2.1 = (login db n p).2.1
          ∧ (login (login db n p).2.1 n p2).2.2 = 0)
    ∧ (∀ (db : DB) (n p stored : String) (r : UserRow),
      n ≠ "" → p ≠ "" →
      db.users.find? (fun u => u.name == n) = some r →
      r.password = some stored →
      stored ≠ "" →
      jsStartsWith stored "$2a$" = true →
      (login db n p).2.1 = db ∧ (login db n p).2.2 = 0
      ∧ ((login db n p).1 = .success ⟨r.id, r.name, r.role, r.area⟩ (userView r)
          ↔ bcryptCompare p stored = true)) := by
  constructor
  · intro db n p r hn hp hfind hpw hnohash
    have hcond : ¬ (n = "" ∨ p = "") := by
      rintro (h | h)
      · exact hn h
      · exact hp h
    have hih : ((p != "") && jsStartsWith p "$2a$") = false := by
      rw [hnohash, Bool.and_false]
    have hrun : login db n p =
        (.success ⟨r.id, r.name, r.role, r.area⟩ (userView r),
          { db with
            users := db.users.map (fun x =>
              if x.id == r.id then { x with password := some (bcryptHash p) } else x) },
          1) := by
      unfold login
      rw [if_neg hcond]
      simp only [hfind, hpw, hih, beq_self_eq_true, Bool.false_eq_true, if_false, if_true]
    refine ⟨by rw [hrun], by rw [hrun], by rw [hrun], ?_⟩
    intro p2
    rw [hrun]
    unfold login
    by_cases hc2 : n = "" ∨ p2 = ""
    · rw [if_pos hc2]
      exact ⟨rfl, rfl⟩
    · rw [if_neg hc2]
      have hfind2 : (db.users.map (fun x =>
            if x.id == r.id then { x with password := some (bcryptHash p) } else x)).find?
              (fun u => u.name == n)
          = some { r with password := some (bcryptHash p) } := by
        rw [find?_map_pwRehash, hfind, Option.map_some']
        simp only [beq_self_eq_true, if_true]
      dsimp only
      simp only [hfind2, bcryptHash_ne_empty, bcryptHash_hasPre, Bool.and_self,
        Option.getD_some, if_true]
      constructor
      · split
        · rfl
        · rfl
      · split
        · rfl
        · rfl
  · intro db n p stored r hn hp hfind hpw hsne hsw
    have hcond : ¬ (n = "" ∨ p = "") := by
      rintro (h | h)
      · exact hn h
      · exact hp h
    have hih : ((stored != "") && jsStartsWith stored "$2a$") = true := by
      rw [bne_iff_ne.mpr hsne, hsw, Bool.and_self]
    unfold login
    rw [if_neg hcond]
    simp only [hfind, hpw, hih, Option.getD_some, if_true]
    refine ⟨?_, ?_, ?_⟩
    · split
      · rfl
      · rfl
    · split
      · rfl
      · rfl
    · by_cases hbc : bcryptCompare p stored = true
      · rw [if_pos hbc]
        simp [hbc]
      · rw [if_neg hbc]
        simp [hbc]

/-- Witness for C6: logging in as alice with the stored plain-text password
"secret" performs exactly one password write, and a repeated login against
the migrated database performs zero writes. -/
theorem claim_c6_witness :
    (login dbPlainPwFx "alice" "secret").2.2 = 1
    ∧ (login (login dbPlainPwFx "alice" "secret").2.1 "alice" "secret").2.2 = 0 := by
  have h := claim_c6_login_migration.1 dbPlainPwFx "alice" "secret"
    ⟨"u1", "alice", "Miembro", "Ar", some "secret", "[]"⟩
    (by decide) (by decide) (by decide) (by decide) (by decide)
  exact ⟨h.2.2.1, (h.2.2.2 "secret").2⟩

/-! ### C10: no stored password reaches a read response -/

theorem map_userView_of_forall (l1 l2 : List UserRow)
    (h : List.Forall₂ (fun u v => userView u = userView v) l1 l2) :
    l1.map userView = l2.map userView := by
  induction h with
  | nil => rfl
  | cons hxy _ ih => simp only [List.map_cons, hxy, ih]

/-- C10: no stored password value appears in a read response. Replacing the
users table by any table whose rows agree on every userView column (all
columns except password) leaves the document assembled by getAppData
unchanged, and the user object of every successful login is the userView
projection of a stored row, which carries no password field. -/
theorem claim_c10_no_password_in_reads :
    (∀ (db : DB) (us2 : List UserRow),
      List.Forall₂ (fun u v => userView u = userView v) db.users us2 →
      getAppData { db with users := us2 } = getAppData db)
    ∧ (∀ (db : DB) (n p : String) (tok : Principal) (uv : UserView),
      (login db n p).1 = .success tok uv →
      ∃ r ∈ db.users, uv = userView r) := by
  constructor
  · intro db us2 h
    have hm : us2.map userView = db.users.map userView :=
      (map_userView_of_forall db.users us2 h).symm
    unfold getAppData
    dsimp only
    rw [hm]
    rfl
  · intro db n p tok uv h
    unfold login at h
    by_cases hc : n = "" ∨ p = ""
    · rw [if_pos hc] at h
      exact absurd h (by simp)
    · rw [if_neg hc] at h
      cases hfind : db.users.find? (fun u => u.name == n) with
      | none =>
        simp only [hfind] at h
        exact absurd h (by simp)
      | some user =>
        simp only [hfind] at h
        have hmem : user ∈ db.users := List.mem_of_find?_eq_some hfind
        split at h
        · split at h
          · simp only [LoginResp.success.injEq] at h
            exact ⟨user, hmem, h.2.symm⟩
          · exact absurd h (by simp)
        · split at h
          · simp only [LoginResp.success.injEq] at h
            exact ⟨user, hmem, h.2.symm⟩
          · exact absurd h (by simp)

/-- Witness for C10: swapping alice's stored password for none leaves the
assembled document unchanged, and the user object of alice's successful
login is the password-free userView projection of her stored row. -/
theorem claim_c10_witness :
    getAppData { dbPlainPwFx with users := [⟨"u1", "alice", "Miembro", "Ar", none, "[]"⟩] }
      = getAppData dbPlainPwFx
    ∧ ∃ r ∈ dbPlainPwFx.users,
        (UserView.mk "u1" "alice" "Miembro" "Ar" "[]") = userView r := by
  constructor
  · exact claim_c10_no_password_in_reads.1 dbPlainPwFx
      [⟨"u1", "alice", "Miembro", "Ar", none, "[]"⟩]
      (List.Forall₂.cons rfl List.Forall₂.nil)
  · exact claim_c10_no_password_in_reads.2 dbPlainPwFx "alice" "secret"
      ⟨"u1", "alice", "Miembro", "Ar"⟩ (UserView.mk "u1" "alice" "Miembro" "Ar" "[]")
      (by decide)
